import Mathlib

/-!
ShapeMaster: verification of the hand-tracking and scoring core.

A shallow embedding of the algorithmic core of ShapeMaster.py (drawing
scorer, skin-color calibration, mask fusion, forearm trimming, fingertip
fallback, point clustering, Kalman smoothing, hand-candidate gating),
together with theorems settling the specification claims about it.

Modelling conventions:
* 8-bit pixels are Nat values; where the Python/NumPy code wraps modulo 256
  (uint8 arithmetic) the model wraps explicitly with % 256.
* float arithmetic is modelled by exact rational arithmetic (ℚ). Comparisons
  of Euclidean distances (np.hypot) against thresholds are modelled by the
  equivalent comparisons of squared integer distances, which agree with the
  real-number semantics on integer inputs.
* int(x) on a non-negative float is the floor; int(np.std xs) is the floor of
  the square root of the population variance, which equals floorSqrt applied
  to the floor of the exact rational variance.
* cv2 library primitives that the claims depend on (threshold, bitwise_not,
  dilate with an elliptic structuring element, inRange, addWeighted,
  KalmanFilter predict/correct, contourArea, boundingRect, polygon moments)
  are modelled from their documented semantics. cv2 calls whose output feeds
  the embedded code only as opaque data (findContours, convexHull,
  convexityDefects) enter as explicit inputs of the embedded functions, and
  each such parameter is documented at its definition.
-/

set_option maxRecDepth 16000

namespace ShapeMaster

/-! ## Grayscale images -/

/-- A single-channel image: dimensions plus a pixel function. Only the
in-range values (r < h, c < w) are meaningful; every operation below reads
only in-range pixels. -/
structure Gray where
  h : Nat
  w : Nat
  pix : Nat → Nat → Nat

/-- cv2.bitwise_not on an 8-bit image: v ↦ 255 - v. -/
def bitwise_not (img : Gray) : Gray :=
  ⟨img.h, img.w, fun r c => 255 - img.pix r c⟩

/-- cv2.threshold(img, t, maxval, cv2.THRESH_BINARY_INV):
dst = 0 where src > t, else maxval. -/
def threshold_binary_inv (img : Gray) (t maxval : Nat) : Gray :=
  ⟨img.h, img.w, fun r c => if t < img.pix r c then 0 else maxval⟩

/-- Floor of the square root of a natural number, computed by exhaustive
search so that it evaluates inside the kernel. -/
def floorSqrt (n : Nat) : Nat :=
  ((List.range (n + 1)).filter fun m => m * m ≤ n).length - 1

/-- cvRound (√n) for a natural n: the nearest integer to √n. A tie would
need (m + 1/2)^2 = m^2 + m + 1/4 to be an integer, which cannot happen, so
round-half-to-even never fires and rounding up exactly when
m^2 + m + 1 ≤ n (that is, √n ≥ m + 1/2) is exact. -/
def cvRoundSqrt (n : Nat) : Nat :=
  let m := floorSqrt n
  if m * m + m + 1 ≤ n then m + 1 else m

/-- The square elliptic structuring element of
cv2.getStructuringElement(cv2.MORPH_ELLIPSE, (ksize, ksize)) with the default
anchor (ksize/2, ksize/2). OpenCV fills, in row i with dy = i - r and
r = c = ksize/2, the columns [max(c - dx, 0), min(c + dx + 1, ksize)) where
dx = cvRound(c·√(r² - dy²)/r) = cvRound(√(r² - dy²)). -/
def ellipseKernel (ksize i j : Nat) : Bool :=
  let r := ksize / 2
  let dy : Int := (i : Int) - (r : Int)
  if dy.natAbs ≤ r then
    let dx := cvRoundSqrt (r * r - dy.natAbs * dy.natAbs)
    decide (r - dx ≤ j ∧ j < min (r + dx + 1) ksize)
  else false

/-- A guarded pixel read: the value at (rr, cc) when that position lies in
the image, nothing otherwise (cv2.dilate uses a constant border that is
neutral for the maximum, so out-of-image positions contribute nothing). -/
def inGrid (img : Gray) (rr cc : Int) : Option Nat :=
  if 0 ≤ rr ∧ rr < (img.h : Int) ∧ 0 ≤ cc ∧ cc < (img.w : Int) then
    some (img.pix rr.toNat cc.toNat)
  else none

/-- The in-bounds source values under the structuring element anchored at
(r, c). -/
def neighborVals (ksize : Nat) (img : Gray) (r c : Nat) : List Nat :=
  (List.range ksize).flatMap fun i =>
    (List.range ksize).filterMap fun j =>
      if ellipseKernel ksize i j then
        inGrid img ((r : Int) + (i : Int) - (ksize / 2 : Nat))
          ((c : Int) + (j : Int) - (ksize / 2 : Nat))
      else none

/-- One cv2.dilate pass with the ksize×ksize elliptic element. -/
def dilate (ksize : Nat) (img : Gray) : Gray :=
  ⟨img.h, img.w, fun r c => (neighborVals ksize img r c).foldl max 0⟩

/-- cv2.dilate with the given iteration count. -/
def dilateN (ksize iter : Nat) (img : Gray) : Gray :=
  (dilate ksize)^[iter] img

/-- np.sum((a == 255) & (b == 255)) over the pixel grid of a. -/
def overlapCount (a b : Gray) : Nat :=
  ((Finset.range a.h ×ˢ Finset.range a.w).filter fun rc =>
    a.pix rc.1 rc.2 = 255 ∧ b.pix rc.1 rc.2 = 255).card

/-- np.sum((a == 255) | (b == 255)) over the pixel grid of a. -/
def unionCount (a b : Gray) : Nat :=
  ((Finset.range a.h ×ˢ Finset.range a.w).filter fun rc =>
    a.pix rc.1 rc.2 = 255 ∨ b.pix rc.1 rc.2 = 255).card

/-- correlation_score (ShapeMaster.py lines 156-185) on single-channel
inputs (the 3-channel branch only converts to grayscale, a cv2 boundary).
Inverts the reference, binarizes both with THRESH_BINARY_INV at 127,
dilates both, and scores overlap against union; the call sites use
dilation_size = 10, factor = 1.1 and iter = 6. -/
def correlation_score (user_img ref_img : Gray) (dilation_size : Nat)
    (factor : ℚ) (iter : Nat) : ℚ × Gray × Gray × Gray × Gray :=
  let ref_gray := bitwise_not ref_img
  let user_bin := threshold_binary_inv user_img 127 255
  let ref_bin := threshold_binary_inv ref_gray 127 255
  let user_dil := dilateN dilation_size iter user_bin
  let ref_dil := dilateN dilation_size iter ref_bin
  let overlap := overlapCount user_dil ref_dil
  let union := unionCount user_dil ref_dil
  let accuracy : ℚ := if union = 0 then 0 else (overlap : ℚ) / (union : ℚ)
  let accuracy_percent := accuracy * 100
  let final_score := min (accuracy_percent * factor) 100
  (final_score, user_dil, ref_dil, user_bin, ref_bin)

/-! ## Forearm trimming -/

/-- A binary mask as a row-major grid; out-of-range reads are 0 (the code
only indexes inside the mask). -/
abbrev Mask := List (List Nat)

/-- mask[r, c] with out-of-range reads defaulting to 0. -/
def getPix (m : Mask) (r c : Nat) : Nat :=
  (m.getD r []).getD c 0

/-- The filled-pixel span width of one row restricted to columns
[x, x + w): rightmost nonzero minus leftmost nonzero plus one, or 0 for an
all-zero row (cut_forearm_automatically lines 413-423). -/
def rowWidth (m : Mask) (row x w : Nat) : Nat :=
  let nz := (List.range w).filter fun j => getPix m row (x + j) != 0
  match nz.head?, nz.getLast? with
  | some a, some b => b - a + 1
  | _, _ => 0

/-- Row widths listed bottom-to-top over the bounding box
(row i of the scan is absolute row y + h - 1 - i). -/
def rowWidths (m : Mask) (x y w h : Nat) : List Nat :=
  (List.range h).map fun i => rowWidth m (y + h - 1 - i) x w

/-- The scan of cut_forearm_automatically lines 426-439: walk the width list
keeping a count of consecutive drastic width drops, return the scan index at
which the count first reaches consecutiveRows. -/
def forearmScanAux (minRatio : ℚ) (consecutiveRows : Nat) :
    List Nat → Nat → Nat → Nat → Option Nat
  | [], _, _, _ => none
  | wcurr :: rest, wprev, count, i =>
      let count1 := if 0 < wprev ∧ (wcurr : ℚ) < minRatio * (wprev : ℚ) then count + 1 else 0
      if consecutiveRows ≤ count1 then some i
      else forearmScanAux minRatio consecutiveRows rest wcurr count1 (i + 1)

/-- mask[r0:r1, c0:c1] = 0 (NumPy slice assignment clamps to the mask). -/
def zeroRegion (m : Mask) (r0 r1 c0 c1 : Nat) : Mask :=
  m.mapIdx fun r row =>
    if r0 ≤ r ∧ r < r1 then
      row.mapIdx fun c v => if c0 ≤ c ∧ c < c1 then 0 else v
    else row

/-- cut_forearm_automatically (lines 407-440). Mutation of the mask is
modelled by returning the new mask alongside the Bool result. -/
def cut_forearm_automatically (mask : Mask) (x y w h : Nat)
    (minRatio : ℚ) (consecutiveRows : Nat) : Bool × Mask :=
  if h < 10 then (false, mask)
  else
    let rw := rowWidths mask x y w h
    match forearmScanAux minRatio consecutiveRows (rw.drop 1) (rw.headD 0) 0 1 with
    | some i => (true, zeroRegion mask (y + h - 1 - i) (y + h) x (x + w))
    | none => (false, mask)

/-- A drastic drop at scan index i for ratio 1/2: the previous row (below it
in the image) is nonempty and the current width is strictly less than half of
it. Stated over naturals: w < (1/2)·p over ℚ iff 2w < p. -/
def dropAtHalf (rw : List Nat) (i : Nat) : Bool :=
  decide (0 < rw.getD (i - 1) 0 ∧ 2 * rw.getD i 0 < rw.getD (i - 1) 0)

/-- Two consecutive drastic drops (ratio 1/2) ending at scan index i. -/
def doubleDropB (rw : List Nat) (i : Nat) : Bool :=
  decide (2 ≤ i) && dropAtHalf rw i && dropAtHalf rw (i - 1)

/-- The first scan index at which two consecutive drastic drops (ratio 1/2)
have just happened: the characterization the claim about the trimmer uses. -/
def firstDoubleDrop (rw : List Nat) : Option Nat :=
  (List.range rw.length).find? (doubleDropB rw)

/-! ## Fingertip point clustering -/

/-- Squared Euclidean distance between integer points. np.hypot p q < t and
np.hypot p q > t on integer inputs are exactly sqDist < t² and > t². -/
def sqDist (p q : Int × Int) : Int :=
  (p.1 - q.1) ^ 2 + (p.2 - q.2) ^ 2

/-- The inner scan of merge_close_points (lines 277-284): fold pt into the
first existing cluster point within the threshold, replacing it by the
pairwise midpoint (Python // floor division); none if no cluster is close. -/
def mergeInto (threshold : Nat) (pt : Int × Int) :
    List (Int × Int) → Option (List (Int × Int))
  | [] => none
  | mp :: rest =>
      if sqDist pt mp < (threshold : Int) ^ 2 then
        some (((pt.1 + mp.1).fdiv 2, (pt.2 + mp.2).fdiv 2) :: rest)
      else
        match mergeInto threshold pt rest with
        | some rest2 => some (mp :: rest2)
        | none => none

/-- merge_close_points (lines 270-287). -/
def merge_close_points (points : List (Int × Int)) (distance_threshold : Nat) :
    List (Int × Int) :=
  points.foldl
    (fun merged pt =>
      match merged with
      | [] => [pt]
      | _ :: _ =>
          match mergeInto distance_threshold pt merged with
          | some merged2 => merged2
          | none => merged ++ [pt])
    []

/-! ## Skin-color calibration -/

/-- One 3-channel pixel (HSV or YCrCb after the cv2.cvtColor boundary). -/
abbrev Pixel3 := Nat × Nat × Nat

/-- A lower/upper bound pair for one color space. -/
structure ColorRange where
  lower : Pixel3
  upper : Pixel3
deriving DecidableEq

/-- The two committed ranges (the globals lower/upper_skin_hsv and
lower/upper_skin_ycrcb). -/
structure CalibState where
  hsv : ColorRange
  ycrcb : ColorRange
deriving DecidableEq

/-- np.argmax(cv2.calcHist(hue channel, 180 bins over [0, 180))): the first
bin index with maximal count; hue values of 180 or more fall outside the
histogram range and are not counted. -/
def histArgmax180 (hues : List Nat) : Nat :=
  (List.range 180).foldl
    (fun best i => if hues.count best < hues.count i then i else best) 0

/-- Exact mean of a sample (np.mean); 0 for the empty list, which the code
never passes (np.mean of an empty slice is NaN). -/
def listMeanQ (xs : List Nat) : ℚ :=
  (xs.sum : ℚ) / (xs.length : ℚ)

/-- int(np.mean xs) for a non-negative sample: the floor of the exact mean. -/
def intMean (xs : List Nat) : Nat :=
  (⌊listMeanQ xs⌋).toNat

/-- Exact population variance of a sample (np.std squared). -/
def listVarQ (xs : List Nat) : ℚ :=
  ((xs.map fun x => ((x : ℚ) - listMeanQ xs) ^ 2).sum) / (xs.length : ℚ)

/-- int(np.std xs): the floor of the square root of the population variance;
for q ≥ 0, ⌊√q⌋ = floorSqrt ⌊q⌋. -/
def intStd (xs : List Nat) : Nat :=
  floorSqrt (⌊listVarQ xs⌋).toNat

/-- The HSV range construction of calibrate_skin_color lines 341-342 and
auto_calibrate_skin_color lines 375-376: hue in
[max(0, peak - 2σ), min(180, peak + 2σ)] (Nat subtraction is the max with 0),
saturation floor 30, value floor 60, ceilings 255. -/
def hsvRangeFromStats (peakHue stdHsv : Nat) : ColorRange :=
  ⟨(peakHue - 2 * stdHsv, 30, 60), (min 180 (peakHue + 2 * stdHsv), 255, 255)⟩

/-- The YCrCb range construction of lines 350-351 and 383-385: luma
unconstrained, Cr in [max(133, cr - σ), min(173, cr + σ)], Cb in
[max(77, cb - σ), min(127, cb + σ)]. -/
def ycrcbRangeFromStats (crMean cbMean stdCrcb : Nat) : ColorRange :=
  ⟨(0, max 133 (crMean - stdCrcb), max 77 (cbMean - stdCrcb)),
   (255, min 173 (crMean + stdCrcb), min 127 (cbMean + stdCrcb))⟩

/-- Peak hue and int(std) of the hue channel of a sampled HSV region. -/
def regionStatsHsv (hsvRegion : List Pixel3) : Nat × Nat :=
  (histArgmax180 (hsvRegion.map Prod.fst), intStd (hsvRegion.map Prod.fst))

/-- int(mean) of Cr and Cb and int(std) of the pooled Cr/Cb channels of a
sampled YCrCb region (np.std over region[:, :, 1:3]). -/
def regionStatsYcrcb (ycrcbRegion : List Pixel3) : Nat × Nat × Nat :=
  (intMean (ycrcbRegion.map fun p => p.2.1),
   intMean (ycrcbRegion.map fun p => p.2.2),
   intStd ((ycrcbRegion.map fun p => p.2.1) ++ (ycrcbRegion.map fun p => p.2.2)))

/-- The range pair both calibration paths build from a sampled region
(identical formulas in calibrate_skin_color and auto_calibrate_skin_color).
The sampled region enters already converted to HSV and YCrCb
(cv2.cvtColor boundary). -/
def rangesFromRegions (hsvRegion ycrcbRegion : List Pixel3) :
    ColorRange × ColorRange :=
  let sh := regionStatsHsv hsvRegion
  let sy := regionStatsYcrcb ycrcbRegion
  (hsvRangeFromStats sh.1 sh.2, ycrcbRangeFromStats sy.1 sy.2.1 sy.2.2)

/-- calibrate_skin_color (lines 321-353): the ranges computed from the fixed
center patch, which run_stage commits verbatim (lines 825-830). -/
def calibrate_skin_color (hsvRegion ycrcbRegion : List Pixel3) :
    ColorRange × ColorRange :=
  rangesFromRegions hsvRegion ycrcbRegion

/-- The true arithmetic midpoint of a stored channel bound pair, as the
specification words it. -/
def trueMidpoint (lo hi : Nat) : Nat :=
  (lo + hi) / 2

/-- The midpoint the code actually computes at lines 388-390: the stored
bounds are NumPy uint8 scalars, so lower + upper wraps modulo 256 before the
integer halving. -/
def uint8Midpoint (lo hi : Nat) : Nat :=
  ((lo + hi) % 256) / 2

/-- auto_calibrate_skin_color (lines 357-403). The frame content is sampled
through the cv2.cvtColor boundary, so the sampled box regions enter as
inputs; the box coordinates are computed from (cx, cy) exactly as in lines
362-365 (Python // is floor division). Returns the possibly updated state
and the sampled box. -/
def auto_calibrate_skin_color (st : CalibState) (frameW frameH cx cy boxSize : Int)
    (hsvRegion ycrcbRegion : List Pixel3) : CalibState × (Int × Int × Int × Int) :=
  let x1 := max (cx - boxSize.fdiv 2) 0
  let y1 := max (cy - boxSize.fdiv 2) 0
  let x2 := min (cx + boxSize.fdiv 2) (frameW - 1)
  let y2 := min (cy + boxSize.fdiv 2) (frameH - 1)
  let sh := regionStatsHsv hsvRegion
  let sy := regionStatsYcrcb ycrcbRegion
  let cand : CalibState :=
    ⟨hsvRangeFromStats sh.1 sh.2, ycrcbRangeFromStats sy.1 sy.2.1 sy.2.2⟩
  let old_hue := uint8Midpoint st.hsv.lower.1 st.hsv.upper.1
  let old_cr := uint8Midpoint st.ycrcb.lower.2.1 st.ycrcb.upper.2.1
  let old_cb := uint8Midpoint st.ycrcb.lower.2.2 st.ycrcb.upper.2.2
  let diff_hue := ((sh.1 : Int) - (old_hue : Int)).natAbs
  let diff_cr := ((sy.1 : Int) - (old_cr : Int)).natAbs
  let diff_cb := ((sy.2.1 : Int) - (old_cb : Int)).natAbs
  if 40 < diff_hue ∨ 40 < diff_cr ∨ 40 < diff_cb then (st, (x1, y1, x2, y2))
  else (cand, (x1, y1, x2, y2))

/-! ## Skin-likelihood mask fusion -/

/-- cv2.inRange on one pixel: 255 where lower ≤ p ≤ upper componentwise
(inclusive), else 0. -/
def inRangePix (lower upper p : Pixel3) : Nat :=
  if lower.1 ≤ p.1 ∧ p.1 ≤ upper.1 ∧
     lower.2.1 ≤ p.2.1 ∧ p.2.1 ≤ upper.2.1 ∧
     lower.2.2 ≤ p.2.2 ∧ p.2.2 ≤ upper.2.2 then 255 else 0

/-- cvRound on an exact rational; no call site below produces a half-integer,
so round-half-up agrees with round-half-to-even. -/
def cvRoundQ (q : ℚ) : Int :=
  ⌊q + 1 / 2⌋

/-- cv2.addWeighted on one 8-bit pixel pair:
saturate_cast(alpha·a + beta·b + gamma). -/
def addWeightedPix (a : Nat) (alpha : ℚ) (b : Nat) (beta : ℚ) (gamma : ℚ) : Nat :=
  min 255 (max 0 (cvRoundQ (alpha * (a : ℚ) + beta * (b : ℚ) + gamma))).toNat

/-- One pixel of the fused skin-likelihood mask of detect_hand lines 453-460:
blend the two inRange masks with weights 0.40 / 0.60 and re-threshold with
cv2.threshold(·, 50, 255, cv2.THRESH_BINARY) (foreground where the blend
exceeds 50). -/
def fusedMaskPix (hsvLower hsvUpper ycrcbLower ycrcbUpper : Pixel3)
    (hsvP ycrcbP : Pixel3) : Nat :=
  let mask_hsv := inRangePix hsvLower hsvUpper hsvP
  let mask_ycrcb := inRangePix ycrcbLower ycrcbUpper ycrcbP
  let combined := addWeightedPix mask_hsv (2 / 5) mask_ycrcb (3 / 5) 0
  if 50 < combined then 255 else 0

/-- The fused mask as claim C6 words it (a definition following the
specification, for comparison with the code): same blend, but re-thresholded
at the midpoint 127 of the 8-bit intensity range. -/
def fusedMaskPixMidpointClaim (hsvLower hsvUpper ycrcbLower ycrcbUpper : Pixel3)
    (hsvP ycrcbP : Pixel3) : Nat :=
  let mask_hsv := inRangePix hsvLower hsvUpper hsvP
  let mask_ycrcb := inRangePix ycrcbLower ycrcbUpper ycrcbP
  let combined := addWeightedPix mask_hsv (2 / 5) mask_ycrcb (3 / 5) 0
  if 127 < combined then 255 else 0

/-! ## Palm center and single-finger fallback -/

/-- Σ (x_i·y_{i+1} - x_{i+1}·y_i) over the closed polygon: twice the signed
enclosed area, the quantity behind cv2.contourArea and the contour moment
m00. -/
def shoelace (c : List (Int × Int)) : Int :=
  ((c.zip (c.drop 1 ++ c.take 1)).map fun pq =>
    pq.1.1 * pq.2.2 - pq.2.1 * pq.1.2).sum

/-- Σ (x_i + x_{i+1})·(x_i·y_{i+1} - x_{i+1}·y_i): six times the polygon
moment m10 (up to the orientation sign shared with m00). -/
def momentSumX (c : List (Int × Int)) : Int :=
  ((c.zip (c.drop 1 ++ c.take 1)).map fun pq =>
    (pq.1.1 + pq.2.1) * (pq.1.1 * pq.2.2 - pq.2.1 * pq.1.2)).sum

/-- Σ (y_i + y_{i+1})·(x_i·y_{i+1} - x_{i+1}·y_i): six times the polygon
moment m01 (up to the orientation sign shared with m00). -/
def momentSumY (c : List (Int × Int)) : Int :=
  ((c.zip (c.drop 1 ++ c.take 1)).map fun pq =>
    (pq.1.2 + pq.2.2) * (pq.1.1 * pq.2.2 - pq.2.1 * pq.1.2)).sum

/-- cv2.boundingRect of an integer contour: (x, y, w, h) with inclusive
pixel extents. (0,0,0,0) for the empty contour, which the callers never
pass. -/
def boundingRect (c : List (Int × Int)) : Int × Int × Int × Int :=
  match c with
  | [] => (0, 0, 0, 0)
  | p :: rest =>
      let xmin := rest.foldl (fun a q => min a q.1) p.1
      let xmax := rest.foldl (fun a q => max a q.1) p.1
      let ymin := rest.foldl (fun a q => min a q.2) p.2
      let ymax := rest.foldl (fun a q => max a q.2) p.2
      (xmin, ymin, xmax - xmin + 1, ymax - ymin + 1)

/-- get_palm_center (lines 291-299). The moment centroid is
(m10/m00, m01/m00) = (momentSumX/(3·shoelace), momentSumY/(3·shoelace)), and
cv2.moments flips the sign of every moment together for clockwise contours,
so the ratio is orientation-independent; m00 ≠ 0 iff shoelace ≠ 0. int() on
the float ratio truncates toward zero (Int.tdiv). The degenerate branch uses
the bounding-box center with Python floor division. -/
def get_palm_center (contour : List (Int × Int)) : Int × Int :=
  let a := shoelace contour
  if a ≠ 0 then
    ((momentSumX contour).tdiv (3 * a), (momentSumY contour).tdiv (3 * a))
  else
    let r := boundingRect contour
    (r.1 + r.2.2.1.fdiv 2, r.2.1 + r.2.2.2.fdiv 2)

/-- fallback_single_finger (lines 303-317): scan the contour for the first
point strictly farther from the center than every earlier one; return it if
its distance exceeds min_radius. Distance comparisons are modelled by the
equivalent squared comparisons. -/
def fallback_single_finger (contour : List (Int × Int)) (center : Int × Int)
    (min_radius : Nat) : Option (Int × Int) :=
  let best := contour.foldl
    (fun acc pt => if acc.1 < sqDist pt center then (sqDist pt center, some pt) else acc)
    ((0 : Int), (none : Option (Int × Int)))
  match best.2 with
  | some p => if ((min_radius : Int)) ^ 2 < best.1 then some p else none
  | none => none

/-- The wrist cutoff line wrist_threshold_y = yF + 0.65·hF (line 582),
as an exact rational. -/
def wristThresholdY (yF hF : Int) : ℚ :=
  (yF : ℚ) + (13 / 20) * (hF : ℚ)

/-- The fallback stage of detect_hand lines 621-624, reached when the defect
analysis produced no surviving fingertip candidates: take the fallback point
and keep it only if it lies above the wrist cutoff line. -/
def fallbackStage (contour : List (Int × Int)) (yF hF : Int) : List (Int × Int) :=
  match fallback_single_finger contour (get_palm_center contour) 50 with
  | some p => if (p.2 : ℚ) < wristThresholdY yF hF then [p] else []
  | none => []

/-! ## Position smoother (cv2.KalmanFilter(4, 2) as configured in
init_kalman_filter, exact rational arithmetic) -/

/-- A 2-vector of rationals. -/
structure V2 where
  x0 : ℚ
  x1 : ℚ
deriving DecidableEq

/-- A 4-vector of rationals. -/
structure V4 where
  x0 : ℚ
  x1 : ℚ
  x2 : ℚ
  x3 : ℚ
deriving DecidableEq

/-- A 4×4 matrix as four rows. -/
structure M44 where
  r0 : V4
  r1 : V4
  r2 : V4
  r3 : V4
deriving DecidableEq

/-- A 2×4 matrix as two rows. -/
structure M24 where
  r0 : V4
  r1 : V4
deriving DecidableEq

/-- A 4×2 matrix as four rows. -/
structure M42 where
  r0 : V2
  r1 : V2
  r2 : V2
  r3 : V2
deriving DecidableEq

/-- A 2×2 matrix as two rows. -/
structure M22 where
  r0 : V2
  r1 : V2
deriving DecidableEq

/-- Dot product of 4-vectors. -/
def dot4 (u v : V4) : ℚ :=
  u.x0 * v.x0 + u.x1 * v.x1 + u.x2 * v.x2 + u.x3 * v.x3

/-- Dot product of 2-vectors. -/
def dot2 (u v : V2) : ℚ :=
  u.x0 * v.x0 + u.x1 * v.x1

/-- Column 0 of a 4×4 matrix. -/
def M44.col0 (A : M44) : V4 := ⟨A.r0.x0, A.r1.x0, A.r2.x0, A.r3.x0⟩

/-- Column 1 of a 4×4 matrix. -/
def M44.col1 (A : M44) : V4 := ⟨A.r0.x1, A.r1.x1, A.r2.x1, A.r3.x1⟩

/-- Column 2 of a 4×4 matrix. -/
def M44.col2 (A : M44) : V4 := ⟨A.r0.x2, A.r1.x2, A.r2.x2, A.r3.x2⟩

/-- Column 3 of a 4×4 matrix. -/
def M44.col3 (A : M44) : V4 := ⟨A.r0.x3, A.r1.x3, A.r2.x3, A.r3.x3⟩

/-- Column 0 of a 4×2 matrix. -/
def M42.col0 (A : M42) : V4 := ⟨A.r0.x0, A.r1.x0, A.r2.x0, A.r3.x0⟩

/-- Column 1 of a 4×2 matrix. -/
def M42.col1 (A : M42) : V4 := ⟨A.r0.x1, A.r1.x1, A.r2.x1, A.r3.x1⟩

/-- One row of a (rows)×4 times 4×4 product. -/
def mulRow44 (u : V4) (B : M44) : V4 :=
  ⟨dot4 u B.col0, dot4 u B.col1, dot4 u B.col2, dot4 u B.col3⟩

/-- 4×4 times 4×4. -/
def mul44 (A B : M44) : M44 :=
  ⟨mulRow44 A.r0 B, mulRow44 A.r1 B, mulRow44 A.r2 B, mulRow44 A.r3 B⟩

/-- 2×4 times 4×4. -/
def mul24_44 (A : M24) (B : M44) : M24 :=
  ⟨mulRow44 A.r0 B, mulRow44 A.r1 B⟩

/-- One row of a (rows)×4 times 4×2 product. -/
def mulRow42 (u : V4) (B : M42) : V2 :=
  ⟨dot4 u B.col0, dot4 u B.col1⟩

/-- 4×4 times 4×2. -/
def mul44_42 (A : M44) (B : M42) : M42 :=
  ⟨mulRow42 A.r0 B, mulRow42 A.r1 B, mulRow42 A.r2 B, mulRow42 A.r3 B⟩

/-- 2×4 times 4×2. -/
def mul24_42 (A : M24) (B : M42) : M22 :=
  ⟨mulRow42 A.r0 B, mulRow42 A.r1 B⟩

/-- One row of a (rows)×2 times 2×4 product. -/
def mulRow24 (u : V2) (B : M24) : V4 :=
  ⟨dot2 u ⟨B.r0.x0, B.r1.x0⟩, dot2 u ⟨B.r0.x1, B.r1.x1⟩,
   dot2 u ⟨B.r0.x2, B.r1.x2⟩, dot2 u ⟨B.r0.x3, B.r1.x3⟩⟩

/-- 4×2 times 2×4. -/
def mul42_24 (A : M42) (B : M24) : M44 :=
  ⟨mulRow24 A.r0 B, mulRow24 A.r1 B, mulRow24 A.r2 B, mulRow24 A.r3 B⟩

/-- One row of a (rows)×2 times 2×2 product. -/
def mulRow22 (u : V2) (B : M22) : V2 :=
  ⟨dot2 u ⟨B.r0.x0, B.r1.x0⟩, dot2 u ⟨B.r0.x1, B.r1.x1⟩⟩

/-- 4×2 times 2×2. -/
def mul42_22 (A : M42) (B : M22) : M42 :=
  ⟨mulRow22 A.r0 B, mulRow22 A.r1 B, mulRow22 A.r2 B, mulRow22 A.r3 B⟩

/-- 4×4 matrix times 4-vector. -/
def mv44 (A : M44) (v : V4) : V4 :=
  ⟨dot4 A.r0 v, dot4 A.r1 v, dot4 A.r2 v, dot4 A.r3 v⟩

/-- 2×4 matrix times 4-vector. -/
def mv24 (A : M24) (v : V4) : V2 :=
  ⟨dot4 A.r0 v, dot4 A.r1 v⟩

/-- 4×2 matrix times 2-vector. -/
def mv42 (A : M42) (v : V2) : V4 :=
  ⟨dot2 A.r0 v, dot2 A.r1 v, dot2 A.r2 v, dot2 A.r3 v⟩

/-- Entrywise sum of 4×4 matrices. -/
def add44 (A B : M44) : M44 :=
  ⟨⟨A.r0.x0 + B.r0.x0, A.r0.x1 + B.r0.x1, A.r0.x2 + B.r0.x2, A.r0.x3 + B.r0.x3⟩,
   ⟨A.r1.x0 + B.r1.x0, A.r1.x1 + B.r1.x1, A.r1.x2 + B.r1.x2, A.r1.x3 + B.r1.x3⟩,
   ⟨A.r2.x0 + B.r2.x0, A.r2.x1 + B.r2.x1, A.r2.x2 + B.r2.x2, A.r2.x3 + B.r2.x3⟩,
   ⟨A.r3.x0 + B.r3.x0, A.r3.x1 + B.r3.x1, A.r3.x2 + B.r3.x2, A.r3.x3 + B.r3.x3⟩⟩

/-- Entrywise difference of 4×4 matrices. -/
def sub44 (A B : M44) : M44 :=
  ⟨⟨A.r0.x0 - B.r0.x0, A.r0.x1 - B.r0.x1, A.r0.x2 - B.r0.x2, A.r0.x3 - B.r0.x3⟩,
   ⟨A.r1.x0 - B.r1.x0, A.r1.x1 - B.r1.x1, A.r1.x2 - B.r1.x2, A.r1.x3 - B.r1.x3⟩,
   ⟨A.r2.x0 - B.r2.x0, A.r2.x1 - B.r2.x1, A.r2.x2 - B.r2.x2, A.r2.x3 - B.r2.x3⟩,
   ⟨A.r3.x0 - B.r3.x0, A.r3.x1 - B.r3.x1, A.r3.x2 - B.r3.x2, A.r3.x3 - B.r3.x3⟩⟩

/-- Entrywise sum of 2×2 matrices. -/
def add22 (A B : M22) : M22 :=
  ⟨⟨A.r0.x0 + B.r0.x0, A.r0.x1 + B.r0.x1⟩, ⟨A.r1.x0 + B.r1.x0, A.r1.x1 + B.r1.x1⟩⟩

/-- Transpose of a 4×4 matrix. -/
def transpose44 (A : M44) : M44 :=
  ⟨A.col0, A.col1, A.col2, A.col3⟩

/-- Transpose of a 2×4 matrix. -/
def transpose24 (A : M24) : M42 :=
  ⟨⟨A.r0.x0, A.r1.x0⟩, ⟨A.r0.x1, A.r1.x1⟩, ⟨A.r0.x2, A.r1.x2⟩, ⟨A.r0.x3, A.r1.x3⟩⟩

/-- Inverse of a 2×2 matrix via the adjugate; zero when singular (the
innovation covariance below is positive definite, so the guard never
fires on reachable states). -/
def inv22 (S : M22) : M22 :=
  let det := S.r0.x0 * S.r1.x1 - S.r0.x1 * S.r1.x0
  if det = 0 then ⟨⟨0, 0⟩, ⟨0, 0⟩⟩
  else ⟨⟨S.r1.x1 / det, -S.r0.x1 / det⟩, ⟨-S.r1.x0 / det, S.r0.x0 / det⟩⟩

/-- The constant-velocity transition matrix of init_kalman_filter. -/
def transF : M44 := ⟨⟨1, 0, 1, 0⟩, ⟨0, 1, 0, 1⟩, ⟨0, 0, 1, 0⟩, ⟨0, 0, 0, 1⟩⟩

/-- The measurement matrix (positions only). -/
def measH : M24 := ⟨⟨1, 0, 0, 0⟩, ⟨0, 1, 0, 0⟩⟩

/-- Process noise covariance 1e-3·I. -/
def procQ : M44 :=
  ⟨⟨1/1000, 0, 0, 0⟩, ⟨0, 1/1000, 0, 0⟩, ⟨0, 0, 1/1000, 0⟩, ⟨0, 0, 0, 1/1000⟩⟩

/-- Measurement noise covariance 1e-2·I. -/
def measR : M22 := ⟨⟨1/100, 0⟩, ⟨0, 1/100⟩⟩

/-- The 4×4 identity (initial errorCovPost). -/
def eye4 : M44 := ⟨⟨1, 0, 0, 0⟩, ⟨0, 1, 0, 0⟩, ⟨0, 0, 1, 0⟩, ⟨0, 0, 0, 1⟩⟩

/-- The full cv2.KalmanFilter state. -/
structure KalmanSt where
  statePre : V4
  errorCovPre : M44
  statePost : V4
  errorCovPost : M44
deriving DecidableEq

/-- cv2.KalmanFilter.predict: statePre = F·statePost,
errorCovPre = F·errorCovPost·Fᵀ + Q, and both are also copied into the post
slots (OpenCV does this so that repeated predictions compound when no
correction follows). -/
def kalmanPredict (k : KalmanSt) : KalmanSt :=
  let pre := mv44 transF k.statePost
  let covPre := add44 (mul44 (mul44 transF k.errorCovPost) (transpose44 transF)) procQ
  ⟨pre, covPre, pre, covPre⟩

/-- cv2.KalmanFilter.correct: gain K = P⁻·Hᵀ·(H·P⁻·Hᵀ + R)⁻¹,
statePost = statePre + K·(z - H·statePre), errorCovPost = P⁻ - K·H·P⁻. -/
def kalmanCorrect (k : KalmanSt) (z : V2) : KalmanSt :=
  let hp := mul24_44 measH k.errorCovPre
  let s := add22 (mul24_42 hp (transpose24 measH)) measR
  let gain := mul42_22 (mul44_42 k.errorCovPre (transpose24 measH)) (inv22 s)
  let innov : V2 := ⟨z.x0 - (mv24 measH k.statePre).x0, z.x1 - (mv24 measH k.statePre).x1⟩
  let corrv := mv42 gain innov
  let post : V4 := ⟨k.statePre.x0 + corrv.x0, k.statePre.x1 + corrv.x1,
                    k.statePre.x2 + corrv.x2, k.statePre.x3 + corrv.x3⟩
  let covPost := sub44 k.errorCovPre (mul42_24 gain hp)
  ⟨k.statePre, k.errorCovPre, post, covPost⟩

/-- init_kalman_filter (lines 209-230): zero state, errorCovPost = I. -/
def init_kalman_filter : KalmanSt :=
  ⟨⟨0, 0, 0, 0⟩, ⟨⟨0, 0, 0, 0⟩, ⟨0, 0, 0, 0⟩, ⟨0, 0, 0, 0⟩, ⟨0, 0, 0, 0⟩⟩,
   ⟨0, 0, 0, 0⟩, eye4⟩

/-- set_kalman_position (lines 234-235): overwrite statePost with
(x, y, 0, 0); nothing else changes. -/
def set_kalman_position (k : KalmanSt) (x y : ℚ) : KalmanSt :=
  { k with statePost := ⟨x, y, 0, 0⟩ }

/-- update_kalman (lines 239-249): predict, then correct when a measurement
is present; with no measurement the predicted position is returned as is. -/
def update_kalman (k : KalmanSt) (meas : Option (ℚ × ℚ)) : KalmanSt × (ℚ × ℚ) :=
  let pred := kalmanPredict k
  match meas with
  | some m =>
      let corr := kalmanCorrect pred ⟨m.1, m.2⟩
      (corr, (corr.statePost.x0, corr.statePost.x1))
  | none => (pred, (pred.statePre.x0, pred.statePre.x1))

/-- The cross-frame smoother state: the filter plus the exposed
smoothed_center (None before first acquisition). -/
structure SmootherState where
  kalman : KalmanSt
  center : Option (ℚ × ℚ)
deriving DecidableEq

/-- The global use_kalman flag, True throughout the program. -/
def use_kalman : Bool := true

/-- The position of the prediction the constant-velocity model makes from
the current posterior state. -/
def predictedPos (k : KalmanSt) : ℚ × ℚ :=
  ((kalmanPredict k).statePre.x0, (kalmanPredict k).statePre.x1)

/-- The smoothing step of detect_hand lines 550-562, given the measurement
(the candidate bounding-box center plus ROI offsets) when a hand candidate
was accepted this frame, and nothing otherwise: on the None side detect_hand
contains no code touching the filter or smoothed_center. -/
def smoothStep (s : SmootherState) (meas : Option (ℚ × ℚ)) : SmootherState :=
  match meas with
  | none => s
  | some m =>
      let k1 := if s.center.isNone && use_kalman then
                  set_kalman_position s.kalman m.1 m.2
                else s.kalman
      if use_kalman then
        let p := update_kalman k1 (some m)
        ⟨p.1, some p.2⟩
      else
        ⟨k1, some m⟩

/-! ## Hand-candidate gating in detect_hand -/

/-- cv2.contourArea: |shoelace| / 2. -/
def contourArea (c : List (Int × Int)) : ℚ :=
  ((shoelace c).natAbs : ℚ) / 2

/-- Python max(contours, key=cv2.contourArea): the first contour of maximal
area (later ties do not replace the current best). -/
def maxByArea (cs : List (List (Int × Int))) : Option (List (Int × Int)) :=
  match cs with
  | [] => none
  | c :: rest =>
      some (rest.foldl (fun best x => if contourArea best < contourArea x then x else best) c)

/-- What detect_hand exposes of a frame for the gating claims: the returned
fingertip list (full-frame coordinates), the smoother state after the frame,
and whether the largest contour was drawn into biggest_mask (became the hand
candidate). -/
structure DetectOutcome where
  fingertips : List (Int × Int)
  smoother : SmootherState
  candidateDrawn : Bool
deriving DecidableEq

/-- detect_hand from the final fused mask onward (lines 514-562 and
621-643). Data produced by cv2 calls enters as inputs: contFinal is
cv2.findContours of final_mask (line 514); contAfterCut is cv2.findContours
of biggest_mask after the forearm cut (line 538); defectStage is the value
of fingertip_points after the convex-hull / convexity-defect analysis of
lines 577-618 (none when that analysis was skipped because the hull had at
most 3 points or cv2.convexityDefects returned None; some [] when it ran and
no candidate survived, which triggers the fallback of lines 621-624). -/
def detect_hand (contFinal contAfterCut : List (List (Int × Int)))
    (defectStage : Option (List (Int × Int)))
    (s : SmootherState) (offset_x offset_y : Int) : DetectOutcome :=
  match maxByArea contFinal with
  | none => ⟨[], s, false⟩
  | some mc =>
      let area_m := contourArea mc
      let drawn : Bool := decide (500 < area_m)
      if 1000 < area_m then
        match maxByArea contAfterCut with
        | none => ⟨[], s, drawn⟩
        | some c2 =>
            if 500 < contourArea c2 then
              let r := boundingRect c2
              let measured : ℚ × ℚ :=
                ((r.1 : ℚ) + (r.2.2.1 : ℚ) / 2 + (offset_x : ℚ),
                 (r.2.1 : ℚ) + (r.2.2.2 : ℚ) / 2 + (offset_y : ℚ))
              let s2 := smoothStep s (some measured)
              let tips :=
                match defectStage with
                | none => []
                | some [] => fallbackStage c2 r.2.1 r.2.2.2
                | some pts => pts
              ⟨tips.map fun p => (p.1 + offset_x, p.2 + offset_y), s2, drawn⟩
            else ⟨[], s, drawn⟩
      else ⟨[], s, drawn⟩

/-- The gating behavior claim C5 attributes to detect_hand, stated from the
specification wording (a definition following the claim, for comparison with
the code): whenever the largest contour of the final mask has area above
500, that contour becomes the hand candidate and fingertip extraction runs
on it, which in particular performs the smoother acquisition/update of
section 4.8 with the candidate bounding-box center. -/
def claimC5Extraction (contFinal contAfterCut : List (List (Int × Int)))
    (defectStage : Option (List (Int × Int)))
    (s : SmootherState) (offset_x offset_y : Int) : Prop :=
  ∀ mc, maxByArea contFinal = some mc → 500 < contourArea mc →
    (detect_hand contFinal contAfterCut defectStage s offset_x offset_y).smoother =
      smoothStep s (some
        (((boundingRect mc).1 : ℚ) + ((boundingRect mc).2.2.1 : ℚ) / 2 + (offset_x : ℚ),
         ((boundingRect mc).2.1 : ℚ) + ((boundingRect mc).2.2.2 : ℚ) / 2 + (offset_y : ℚ)))

/-- The invariants of claim C2 that do hold of every committed HSV range:
ordered bounds, hue within [0, 180], all components 8-bit. -/
def hsvRangeInv (r : ColorRange) : Prop :=
  r.lower.1 ≤ r.upper.1 ∧ r.upper.1 ≤ 180 ∧
  r.lower.2.1 ≤ r.upper.2.1 ∧ r.lower.2.2 ≤ r.upper.2.2 ∧
  r.lower.1 ≤ 255 ∧ r.lower.2.1 ≤ 255 ∧ r.lower.2.2 ≤ 255 ∧
  r.upper.1 ≤ 255 ∧ r.upper.2.1 ≤ 255 ∧ r.upper.2.2 ≤ 255

/-- The invariants of claim C2 that do hold of every committed YCrCb range:
ordered luma bounds, Cr lower at least 133 and Cr upper at most 173, Cb
lower at least 77 and Cb upper at most 127, all components 8-bit. The
chroma channels need NOT satisfy lower ≤ upper: when the sampled mean sits
far outside the clamp window the max/min clamps cross. -/
def ycrcbRangeInvAmended (r : ColorRange) : Prop :=
  r.lower.1 ≤ r.upper.1 ∧
  133 ≤ r.lower.2.1 ∧ r.upper.2.1 ≤ 173 ∧
  77 ≤ r.lower.2.2 ∧ r.upper.2.2 ≤ 127 ∧
  r.lower.1 ≤ 255 ∧ r.lower.2.1 ≤ 255 ∧ r.lower.2.2 ≤ 255 ∧
  r.upper.1 ≤ 255 ∧ r.upper.2.1 ≤ 255 ∧ r.upper.2.2 ≤ 255

/-! ## Concrete instances used by counterexamples and witnesses -/

/-- The 1×1 all-black mask. -/
def grayZero1 : Gray := ⟨1, 1, fun _ _ => 0⟩

/-- A uniform sampled HSV patch with peak hue 20 (a typical skin hue). -/
def hsvRegUniform20 : List Pixel3 := [(20, 50, 60)]

/-- A uniform sampled YCrCb patch with Cr 150, Cb 100 (typical skin). -/
def ycrcbRegSkin : List Pixel3 := [(100, 150, 100)]

/-- The YCrCb image of a magenta patch: BGR (255, 0, 255) converts to
YCrCb (105, 235, 213); a camera pointed at a magenta background during
calibration samples exactly this. -/
def ycrcbRegMagenta : List Pixel3 := [(105, 235, 213)]

/-- The state a committing calibration on the uniform skin patch leaves
behind: peak hue 20 with zero hue deviation, chroma means 150/100 with
pooled deviation 25, giving hsv bounds (20,30,60)-(20,255,255) and ycrcb
bounds (0,133,77)-(255,173,125); the evaluation is proved below. -/
def calibStSkin : CalibState :=
  ⟨⟨(20, 30, 60), (20, 255, 255)⟩, ⟨(0, 133, 77), (255, 173, 125)⟩⟩

/-- A rectangular contour (as cv2.findContours reports an axis-aligned
filled rectangle) with cv2.contourArea 108 · 6 = 648, inside (500, 1000]. -/
def c5rect : List (Int × Int) := [(0, 0), (108, 0), (108, 6), (0, 6)]

/-- The freshly initialized smoother: filter from init_kalman_filter and no
acquired center yet (main lines 1103-1104). -/
def smootherInit : SmootherState := ⟨init_kalman_filter, none⟩

/-- The smoother after one hand frame measured at (0, 0): the first
acquisition seeds the filter and immediately corrects. -/
def cexS1 : SmootherState := smoothStep smootherInit (some (0, 0))

/-- The smoother after a second hand frame measured at (10, 10): the
correction leaves a nonzero estimated velocity. -/
def cexS2 : SmootherState := smoothStep cexS1 (some (10, 10))

/-- The posterior covariance after the first frame (exact value, established
by the evaluation lemma below). -/
def covP1 : M44 :=
  ⟨⟨2001/201100, 0, 10/2011, 0⟩, ⟨0, 2001/201100, 0, 10/2011⟩,
   ⟨10/2011, 0, 1013011/2011000, 0⟩, ⟨0, 10/2011, 0, 1013011/2011000⟩⟩

/-- The full filter state after the second frame (exact value, established
by the evaluation lemma below): position ≈ 9.81, velocity ≈ 9.51 per axis. -/
def kalmanS2 : KalmanSt :=
  ⟨⟨0, 0, 0, 0⟩,
   ⟨⟨131879/251375, 0, 1023011/2011000, 0⟩, ⟨0, 131879/251375, 0, 1023011/2011000⟩,
    ⟨1023011/2011000, 0, 507511/1005500, 0⟩, ⟨0, 1023011/2011000, 0, 507511/1005500⟩⟩,
   ⟨5275160/537571, 5275160/537571, 5115055/537571, 5115055/537571⟩,
   ⟨⟨131879/13439275, 0, 1023011/107514200, 0⟩, ⟨0, 131879/13439275, 0, 1023011/107514200⟩,
    ⟨1023011/107514200, 0, 22248273/1075142000, 0⟩,
    ⟨0, 1023011/107514200, 0, 22248273/1075142000⟩⟩⟩

/-! ## Theorems -/

/-- Squared distance is symmetric. -/
lemma sqDist_comm (p q : Int × Int) : sqDist p q = sqDist q p := by
  simp only [sqDist]
  ring

/-- Claim C8: merge_close_points with the default 20 px threshold merges a
pair of points lying strictly within 20 px of each other into their single
pairwise integer midpoint (Python floor division), and returns both points
unmodified when they are at least 20 px apart. The distance comparison
np.hypot p q < 20 on integer points is exactly sqDist p q < 400. -/
theorem C8_theorem (p q : Int × Int) :
    merge_close_points [p, q] 20 =
      if sqDist p q < 400 then [((p.1 + q.1).fdiv 2, (p.2 + q.2).fdiv 2)]
      else [p, q] := by
  have hsym : sqDist q p = sqDist p q := sqDist_comm q p
  by_cases h : sqDist p q < 400
  · have h2 : sqDist q p < 400 := by rw [hsym]; exact h
    have e1 : q.1 + p.1 = p.1 + q.1 := add_comm _ _
    have e2 : q.2 + p.2 = p.2 + q.2 := add_comm _ _
    simp [merge_close_points, mergeInto, h2, h, e1, e2]
  · have h2 : ¬ sqDist q p < 400 := by rw [hsym]; exact h
    simp [merge_close_points, mergeInto, h2, h]

/-- Evaluation of cexS1: the first frame seeds the filter at the
measurement, predicts from covariance I, and corrects with zero
innovation. -/
lemma cexS1_eval : cexS1 = ⟨⟨⟨0, 0, 0, 0⟩,
    ⟨⟨2001/1000, 0, 1, 0⟩, ⟨0, 2001/1000, 0, 1⟩,
     ⟨1, 0, 1001/1000, 0⟩, ⟨0, 1, 0, 1001/1000⟩⟩,
    ⟨0, 0, 0, 0⟩, covP1⟩, some (0, 0)⟩ := by
  norm_num [cexS1, smootherInit, smoothStep, use_kalman, Option.isNone,
    set_kalman_position, init_kalman_filter, update_kalman, kalmanPredict,
    kalmanCorrect, mv44, mv24, mv42, mul44, mul24_44, mul24_42, mul44_42,
    mul42_22, mul42_24, add44, sub44, add22, transpose44, transpose24, inv22,
    mulRow44, mulRow42, mulRow24, mulRow22, dot4, dot2, M44.col0, M44.col1,
    M44.col2, M44.col3, M42.col0, M42.col1, transF, measH, procQ, measR,
    eye4, covP1]

/-- Evaluation of cexS2: the second correction pulls the position toward
(10, 10) and leaves a nonzero estimated velocity 5115055/537571 per axis. -/
lemma cexS2_eval : cexS2 = ⟨kalmanS2, some (5275160/537571, 5275160/537571)⟩ := by
  rw [cexS2, cexS1_eval]
  norm_num [smoothStep, use_kalman, Option.isNone, set_kalman_position,
    update_kalman, kalmanPredict, kalmanCorrect, mv44, mv24, mv42, mul44,
    mul24_44, mul24_42, mul44_42, mul42_22, mul42_24, add44, sub44, add22,
    transpose44, transpose24, inv22, mulRow44, mulRow42, mulRow24, mulRow22,
    dot4, dot2, M44.col0, M44.col1, M44.col2, M44.col3, M42.col0, M42.col1,
    transF, measH, procQ, measR, eye4, covP1, kalmanS2]

/-- Claim C4, counterexample: take the reachable smoother state cexS2
(seeded at (0, 0), then corrected with measurement (10, 10), so the
estimated velocity is nonzero). On the following no-hand frame the exposed
smoothed center is simply the previous center — not the constant-velocity
prediction for that frame, which differs by the estimated velocity. -/
theorem C4_counterexample :
    (smoothStep cexS2 none).center = cexS2.center ∧
    (smoothStep cexS2 none).center ≠ some (predictedPos cexS2.kalman) := by
  constructor
  · rfl
  · rw [show smoothStep cexS2 none = cexS2 from rfl, cexS2_eval]
    norm_num [predictedPos, kalmanPredict, mv44, dot4, transF, kalmanS2]

/-- Claim C4, amended: on a frame with no hand candidate, detect_hand leaves
the smoother completely unchanged (no predict step runs; the previous center
stays exposed). The coasting path does exist inside update_kalman — with a
missing measurement it returns the predicted, uncorrected position — but
detect_hand never invokes update_kalman without a measurement. -/
theorem C4_theorem :
    (∀ s : SmootherState, smoothStep s none = s) ∧
    (∀ k : KalmanSt, update_kalman k none = (kalmanPredict k, predictedPos k)) :=
  ⟨fun _ => rfl, fun _ => rfl⟩

/-- The float condition w_curr < 0.5·w_prev of the scan is exactly the
natural-number condition 2·w_curr < w_prev. -/
lemma half_ratio_iff (a b : ℕ) : ((a : ℚ) < (1 / 2) * (b : ℚ)) ↔ 2 * a < b := by
  rw [div_mul_eq_mul_div, one_mul, lt_div_iff₀ (by norm_num : (0:ℚ) < 2)]
  rw [show (a : ℚ) * 2 = ((2 * a : ℕ) : ℚ) by push_cast; ring]
  exact Nat.cast_lt

/-- The head of a dropped suffix is the element at its offset. -/
lemma drop_head_getD (rw : List Nat) (i : Nat) (wcurr : Nat) (rest : List Nat)
    (h : rw.drop i = wcurr :: rest) : rw.getD i 0 = wcurr := by
  have h1 : rw[i]? = some wcurr := by
    have h2 := List.getElem?_drop rw i 0
    rw [h] at h2
    simpa using h2.symm
  simp [List.getD_eq_getElem?_getD, h1]

/-- The counter-based scan with ratio 1/2 and run length 2 finds exactly the
first index at which two consecutive drastic drops have just happened. -/
lemma forearmScanAux_eq (rw : List Nat) :
    ∀ (l : List Nat) (i count : Nat), 1 ≤ i → l = rw.drop i →
    count = (if 2 ≤ i ∧ dropAtHalf rw (i - 1) = true then 1 else 0) →
    forearmScanAux (1/2) 2 l (rw.getD (i - 1) 0) count i =
      (List.range' i l.length).find? (doubleDropB rw) := by
  intro l
  induction l with
  | nil =>
      intro i count h1 hl hc
      simp [forearmScanAux]
  | cons wcurr rest ih =>
      intro i count h1 hl hc
      have hget : rw.getD i 0 = wcurr := drop_head_getD rw i wcurr rest hl.symm
      have hrest : rest = rw.drop (i + 1) := by
        have h2 : List.drop 1 (List.drop i rw) = List.drop (i + 1) rw := List.drop_drop 1 i rw
        rw [← hl] at h2
        simpa using h2
      have hcond : (0 < rw.getD (i-1) 0 ∧ (wcurr : ℚ) < (1/2) * (rw.getD (i-1) 0 : ℚ)) ↔
          dropAtHalf rw i = true := by
        rw [dropAtHalf, decide_eq_true_iff, hget, half_ratio_iff]
      have hlen : (wcurr :: rest).length = rest.length + 1 := rfl
      rw [hlen, List.range'_succ]
      by_cases hd : dropAtHalf rw i = true
      · by_cases hprev : 2 ≤ i ∧ dropAtHalf rw (i - 1) = true
        · rw [forearmScanAux, if_pos (hcond.mpr hd), hc, if_pos hprev,
            if_pos (by norm_num)]
          rw [List.find?_cons_of_pos]
          simp [doubleDropB, hd, hprev.1, hprev.2]
        · have hcz : count = 0 := by rw [hc, if_neg hprev]
          have hnpred : ¬ doubleDropB rw i = true := by
            simp only [doubleDropB, Bool.and_eq_true, decide_eq_true_iff]
            intro hcontra
            exact hprev ⟨hcontra.1.1, hcontra.2⟩
          rw [forearmScanAux, if_pos (hcond.mpr hd), hcz,
            if_neg (by norm_num)]
          rw [List.find?_cons_of_neg _ hnpred]
          have := ih (i + 1) 1 (by omega) hrest
            (by rw [if_pos ⟨by omega, by simpa using hd⟩])
          rw [show rw.getD (i + 1 - 1) 0 = wcurr by simpa using hget] at this
          exact this
      · have hnpred : ¬ doubleDropB rw i = true := by
          simp only [doubleDropB, Bool.and_eq_true, decide_eq_true_iff]
          intro hcontra
          exact hd hcontra.1.2
        rw [forearmScanAux, if_neg (fun hcontra => hd (hcond.mp hcontra)),
          if_neg (by norm_num)]
        rw [List.find?_cons_of_neg _ hnpred]
        have := ih (i + 1) 0 (by omega) hrest
          (by rw [if_neg (fun hcontra => hd (by simpa using hcontra.2))])
        rw [show rw.getD (i + 1 - 1) 0 = wcurr by simpa using hget] at this
        exact this

/-- Claim C7: with ratio 0.5 and run length 2 (the values detect_hand
passes), cut_forearm_automatically returns the input mask byte-identical
with False when the bounding-box height is below 10 or when no scan index
has two consecutive drastic width drops; and when scanning bottom-to-top
some index i is the first whose width and the width before it each fall
strictly below half of their respective predecessors, it zeroes the mask
from the contraction row y + h - 1 - i downward within the bounding box
columns and returns True. -/
theorem C7_theorem (mask : Mask) (x y w h : Nat) :
    cut_forearm_automatically mask x y w h (1/2) 2 =
      if h < 10 then (false, mask)
      else
        match firstDoubleDrop (rowWidths mask x y w h) with
        | some i => (true, zeroRegion mask (y + h - 1 - i) (y + h) x (x + w))
        | none => (false, mask) := by
  by_cases hh : h < 10
  · simp [cut_forearm_automatically, hh]
  · rw [cut_forearm_automatically, if_neg hh, if_neg hh]
    show (match forearmScanAux (1/2) 2 ((rowWidths mask x y w h).drop 1)
        ((rowWidths mask x y w h).headD 0) 0 1 with
      | some i => (true, zeroRegion mask (y + h - 1 - i) (y + h) x (x + w))
      | none => (false, mask)) = _
    have hlen : (rowWidths mask x y w h).length = h := by
      simp [rowWidths]
    have hne : rowWidths mask x y w h ≠ [] := by
      intro hcontra
      rw [hcontra] at hlen
      simp at hlen
      omega
    have hhead : (rowWidths mask x y w h).headD 0 = (rowWidths mask x y w h).getD 0 0 := by
      rw [List.headD_eq_head?, List.getD_eq_getElem?_getD]
      cases hrw : rowWidths mask x y w h with
      | nil => exact absurd hrw hne
      | cons a l => simp
    have hkey := forearmScanAux_eq (rowWidths mask x y w h)
      ((rowWidths mask x y w h).drop 1) 1 0 (le_refl 1) rfl
      (by rw [if_neg (fun hcontra => by omega)])
    rw [show (rowWidths mask x y w h).getD 0 0 = (rowWidths mask x y w h).getD (1 - 1) 0
      from rfl] at hhead
    rw [hhead, hkey]
    have hdlen : ((rowWidths mask x y w h).drop 1).length = h - 1 := by
      simp [hlen]
    rw [hdlen]
    have hfirst : firstDoubleDrop (rowWidths mask x y w h) =
        (List.range' 1 (h - 1)).find? (doubleDropB (rowWidths mask x y w h)) := by
      rw [firstDoubleDrop, hlen, List.range_eq_range']
      cases hcase : h with
      | zero => omega
      | succ n =>
          rw [List.range'_succ]
          rw [List.find?_cons_of_neg]
          · simp
          · simp [doubleDropB]
    rw [hfirst]

/-- cv2.inRange output is binary. -/
lemma inRangePix_eq_or (lower upper p : Pixel3) :
    inRangePix lower upper p = 0 ∨ inRangePix lower upper p = 255 := by
  rw [inRangePix]
  split
  · right
    rfl
  · left
    rfl

/-- On binary inputs, blending with weights 2/5 and 3/5 and thresholding at
50 is exactly the union of the foregrounds. -/
lemma blend_threshold50_iff (a b : Nat) (ha : a = 0 ∨ a = 255) (hb : b = 0 ∨ b = 255) :
    ((if 50 < addWeightedPix a (2/5) b (3/5) 0 then 255 else 0) = 255 ↔
      (a = 255 ∨ b = 255)) := by
  rcases ha with rfl | rfl <;> rcases hb with rfl | rfl <;>
    norm_num [addWeightedPix, cvRoundQ]

/-- Claim C6, amended: the fused skin-likelihood mask is the blend of the
HSV mask (weight 0.40) and the YCrCb mask (weight 0.60) re-thresholded at
50, not at the midpoint of the intensity range; since the input masks are
binary (0/255), a pixel of the fused mask is foreground exactly when either
color-space mask marks it (the blend values 102, 153 and 255 all exceed
50). -/
theorem C6_theorem (hsvLower hsvUpper ycrcbLower ycrcbUpper hsvP ycrcbP : Pixel3) :
    fusedMaskPix hsvLower hsvUpper ycrcbLower ycrcbUpper hsvP ycrcbP = 255 ↔
      (inRangePix hsvLower hsvUpper hsvP = 255 ∨
       inRangePix ycrcbLower ycrcbUpper ycrcbP = 255) := by
  have h := blend_threshold50_iff (inRangePix hsvLower hsvUpper hsvP)
    (inRangePix ycrcbLower ycrcbUpper ycrcbP)
    (inRangePix_eq_or hsvLower hsvUpper hsvP)
    (inRangePix_eq_or ycrcbLower ycrcbUpper ycrcbP)
  exact h

/-- Claim C6, counterexample: a pixel inside the HSV range but outside the
YCrCb range blends to 0.40 · 255 = 102. The code (threshold 50) marks it
foreground; the claimed re-threshold at the midpoint 127 of the intensity
range would mark it background, so the two rules differ. -/
theorem C6_counterexample :
    fusedMaskPix (0, 0, 0) (255, 255, 255) (200, 200, 200) (201, 201, 201)
        (10, 10, 10) (0, 0, 0) = 255 ∧
    fusedMaskPixMidpointClaim (0, 0, 0) (255, 255, 255) (200, 200, 200) (201, 201, 201)
        (10, 10, 10) (0, 0, 0) = 0 := by
  constructor <;>
    norm_num [fusedMaskPix, fusedMaskPixMidpointClaim, inRangePix, addWeightedPix, cvRoundQ]

/-- Overlap never exceeds union. -/
lemma overlapCount_le_unionCount (a b : Gray) : overlapCount a b ≤ unionCount a b := by
  apply Finset.card_le_card
  intro rc hrc
  rw [Finset.mem_filter] at hrc ⊢
  exact ⟨hrc.1, Or.inl hrc.2.1⟩

/-- Claim C10: correlation_score is total and guarded. With the default
factor 1.1 the final score always lies in [0, 100], and when the union of
the two dilated binary masks is empty the guarded accuracy is 0.0, so the
score is 0 rather than a division error. -/
theorem C10_theorem (user_img ref_img : Gray) (dilation_size iter : Nat) :
    (unionCount (correlation_score user_img ref_img dilation_size (11/10) iter).2.1
        (correlation_score user_img ref_img dilation_size (11/10) iter).2.2.1 = 0 →
      (correlation_score user_img ref_img dilation_size (11/10) iter).1 = 0) ∧
    0 ≤ (correlation_score user_img ref_img dilation_size (11/10) iter).1 ∧
    (correlation_score user_img ref_img dilation_size (11/10) iter).1 ≤ 100 := by
  have hud : (correlation_score user_img ref_img dilation_size (11/10) iter).2.1 =
      dilateN dilation_size iter (threshold_binary_inv user_img 127 255) := rfl
  have hrd : (correlation_score user_img ref_img dilation_size (11/10) iter).2.2.1 =
      dilateN dilation_size iter (threshold_binary_inv (bitwise_not ref_img) 127 255) := rfl
  set ud := dilateN dilation_size iter (threshold_binary_inv user_img 127 255) with hudv
  set rd := dilateN dilation_size iter
    (threshold_binary_inv (bitwise_not ref_img) 127 255) with hrdv
  have hscore : (correlation_score user_img ref_img dilation_size (11/10) iter).1 =
      min ((if unionCount ud rd = 0 then (0 : ℚ)
            else (overlapCount ud rd : ℚ) / (unionCount ud rd : ℚ)) * 100 * (11/10)) 100 := rfl
  rw [hud, hrd, hscore]
  by_cases hz : unionCount ud rd = 0
  · rw [if_pos hz]
    norm_num
  · rw [if_neg hz]
    have hle := overlapCount_le_unionCount ud rd
    have hupos : (0 : ℚ) < (unionCount ud rd : ℚ) := by
      exact_mod_cast Nat.pos_of_ne_zero hz
    have hnn : (0 : ℚ) ≤ (overlapCount ud rd : ℚ) / (unionCount ud rd : ℚ) :=
      div_nonneg (by positivity) (le_of_lt hupos)
    have hone : (overlapCount ud rd : ℚ) / (unionCount ud rd : ℚ) ≤ 1 := by
      rw [div_le_one hupos]
      exact_mod_cast hle
    refine ⟨fun hcontra => absurd hcontra hz, ?_, ?_⟩
    · exact le_min (by positivity) (by norm_num)
    · exact min_le_right _ _

/-- np.argmax over 180 histogram bins is an index below 180. -/
lemma histArgmax180_lt (hues : List Nat) : histArgmax180 hues < 180 := by
  rw [histArgmax180]
  have hstep : ∀ (l : List Nat) (b : Nat), b < 180 → (∀ i ∈ l, i < 180) →
      l.foldl (fun best i => if hues.count best < hues.count i then i else best) b < 180 := by
    intro l
    induction l with
    | nil =>
        intro b hb _
        simpa using hb
    | cons a t ih =>
        intro b hb hmem
        rw [List.foldl_cons]
        apply ih
        · by_cases hc : hues.count b < hues.count a
          · rw [if_pos hc]
            exact hmem a (by simp)
          · rw [if_neg hc]
            exact hb
        · intro i hi
          exact hmem i (by simp [hi])
  exact hstep (List.range 180) 0 (by norm_num) (fun i hi => List.mem_range.mp hi)

/-- The floored mean of a nonempty sample of values at most b is at most b. -/
lemma intMean_le (xs : List Nat) (b : Nat) (hne : xs ≠ []) (hb : ∀ x ∈ xs, x ≤ b) :
    intMean xs ≤ b := by
  have hlen : 0 < xs.length := List.length_pos.mpr hne
  have hsum : xs.sum ≤ xs.length * b := by
    calc xs.sum ≤ xs.length • b := List.sum_le_card_nsmul xs b hb
    _ = xs.length * b := smul_eq_mul ℕ
  have hmean : listMeanQ xs ≤ (b : ℚ) := by
    rw [listMeanQ, div_le_iff₀ (by exact_mod_cast hlen)]
    calc (xs.sum : ℚ) ≤ ((xs.length * b : ℕ) : ℚ) := by exact_mod_cast hsum
    _ = (b : ℚ) * (xs.length : ℚ) := by push_cast; ring
  have hfloor : ⌊listMeanQ xs⌋ ≤ (b : ℤ) := by
    calc ⌊listMeanQ xs⌋ ≤ ⌊(b : ℚ)⌋ := Int.floor_le_floor hmean
    _ = (b : ℤ) := Int.floor_natCast b
  exact Int.toNat_le.mpr hfloor

/-- Every HSV range the calibrator can construct satisfies the amended
invariants, given that the peak hue is a histogram bin index. -/
lemma hsvRangeFromStats_inv (p σ : Nat) (hp : p < 180) :
    hsvRangeInv (hsvRangeFromStats p σ) := by
  simp only [hsvRangeInv, hsvRangeFromStats]
  omega

/-- Every YCrCb range the calibrator can construct satisfies the amended
invariants, given 8-bit chroma means. -/
lemma ycrcbRangeFromStats_inv (cr cb σ : Nat) (hcr : cr ≤ 255) (hcb : cb ≤ 255) :
    ycrcbRangeInvAmended (ycrcbRangeFromStats cr cb σ) := by
  simp only [ycrcbRangeInvAmended, ycrcbRangeFromStats]
  omega

/-- auto_calibrate_skin_color either rejects (state unchanged) or commits
exactly the range pair rangesFromRegions builds from the sampled regions. -/
lemma auto_calibrate_commit_or (st : CalibState) (fw fh cx cy bs : Int)
    (hsvRegion ycrcbRegion : List Pixel3) :
    (auto_calibrate_skin_color st fw fh cx cy bs hsvRegion ycrcbRegion).1 = st ∨
    (auto_calibrate_skin_color st fw fh cx cy bs hsvRegion ycrcbRegion).1 =
      ⟨(rangesFromRegions hsvRegion ycrcbRegion).1,
       (rangesFromRegions hsvRegion ycrcbRegion).2⟩ := by
  rw [auto_calibrate_skin_color]
  split
  · exact Or.inl rfl
  · exact Or.inr rfl

/-- Claim C2, amended: after every committing calibration (manual, or an
auto call that commits), each component of both stored ranges fits in 8
bits; the hue bounds are ordered and lie within [0, 180]; the
saturation/value and luma channels are ordered; the Cr lower bound is at
least 133 and the Cr upper bound at most 173; the Cb lower bound is at
least 77 and the Cb upper bound at most 127. Ordering of the chroma bounds
themselves can fail (see the counterexample), so it is not part of the
invariant. Hypotheses: the sampled YCrCb region is nonempty with 8-bit
chroma components (cv2.cvtColor guarantees both). -/
theorem C2_theorem (hsvRegion ycrcbRegion : List Pixel3)
    (hy : ycrcbRegion ≠ [])
    (hb : ∀ p ∈ ycrcbRegion, p.2.1 ≤ 255 ∧ p.2.2 ≤ 255) :
    hsvRangeInv (rangesFromRegions hsvRegion ycrcbRegion).1 ∧
    ycrcbRangeInvAmended (rangesFromRegions hsvRegion ycrcbRegion).2 ∧
    ∀ (st : CalibState) (fw fh cx cy bs : Int),
      (auto_calibrate_skin_color st fw fh cx cy bs hsvRegion ycrcbRegion).1 = st ∨
      (auto_calibrate_skin_color st fw fh cx cy bs hsvRegion ycrcbRegion).1 =
        ⟨(rangesFromRegions hsvRegion ycrcbRegion).1,
         (rangesFromRegions hsvRegion ycrcbRegion).2⟩ := by
  have hyne : ycrcbRegion.map (fun p => p.2.1) ≠ [] := by
    simpa using hy
  have hyne2 : ycrcbRegion.map (fun p => p.2.2) ≠ [] := by
    simpa using hy
  have hcr : intMean (ycrcbRegion.map fun p => p.2.1) ≤ 255 := by
    apply intMean_le _ 255 hyne
    intro x hx
    obtain ⟨q, hq, rfl⟩ := List.mem_map.mp hx
    exact (hb q hq).1
  have hcb : intMean (ycrcbRegion.map fun p => p.2.2) ≤ 255 := by
    apply intMean_le _ 255 hyne2
    intro x hx
    obtain ⟨q, hq, rfl⟩ := List.mem_map.mp hx
    exact (hb q hq).2
  refine ⟨?_, ?_, fun st fw fh cx cy bs =>
    auto_calibrate_commit_or st fw fh cx cy bs hsvRegion ycrcbRegion⟩
  · exact hsvRangeFromStats_inv _ _ (histArgmax180_lt (hsvRegion.map Prod.fst))
  · exact ycrcbRangeFromStats_inv _ _ _ hcr hcb

/-- Witness for C2 at a concrete skin-toned sample. -/
theorem C2_witness :
    hsvRangeInv (rangesFromRegions hsvRegUniform20 ycrcbRegSkin).1 ∧
    ycrcbRangeInvAmended (rangesFromRegions hsvRegUniform20 ycrcbRegSkin).2 :=
  ⟨(C2_theorem hsvRegUniform20 ycrcbRegSkin (by simp [ycrcbRegSkin])
      (by intro p hp; simp [ycrcbRegSkin] at hp; simp [hp])).1,
   (C2_theorem hsvRegUniform20 ycrcbRegSkin (by simp [ycrcbRegSkin])
      (by intro p hp; simp [ycrcbRegSkin] at hp; simp [hp])).2.1⟩

/-- Evaluation of the YCrCb statistics of the magenta sample. -/
lemma regionStatsYcrcb_magenta : regionStatsYcrcb ycrcbRegMagenta = (235, 213, 11) := by
  rw [regionStatsYcrcb, ycrcbRegMagenta]
  refine Prod.ext ?_ (Prod.ext ?_ ?_)
  · norm_num [intMean, listMeanQ]
    decide
  · norm_num [intMean, listMeanQ]
    decide
  · show intStd [235, 213] = 11
    have hvar : (⌊listVarQ [235, 213]⌋).toNat = 121 := by
      norm_num [listVarQ, listMeanQ]
      decide
    rw [intStd, hvar]
    decide

/-- Claim C2, counterexample: manual calibration on a magenta patch
(BGR (255, 0, 255), which cv2.cvtColor maps to YCrCb (105, 235, 213))
commits a YCrCb range with Cr lower bound max(133, 235 - 11) = 224 above
the Cr upper bound min(173, 235 + 11) = 173: lower ≤ upper fails and the
lower bound is outside [133, 173]. -/
theorem C2_counterexample :
    (calibrate_skin_color hsvRegUniform20 ycrcbRegMagenta).2.lower.2.1 = 224 ∧
    (calibrate_skin_color hsvRegUniform20 ycrcbRegMagenta).2.upper.2.1 = 173 ∧
    ¬ ((calibrate_skin_color hsvRegUniform20 ycrcbRegMagenta).2.lower.2.1 ≤
       (calibrate_skin_color hsvRegUniform20 ycrcbRegMagenta).2.upper.2.1) := by
  have h : (calibrate_skin_color hsvRegUniform20 ycrcbRegMagenta).2 =
      ycrcbRangeFromStats 235 213 11 := by
    rw [calibrate_skin_color, rangesFromRegions]
    rw [regionStatsYcrcb_magenta]
  rw [h]
  norm_num [ycrcbRangeFromStats]

/-- Evaluation of the HSV statistics of the uniform skin-hue sample. -/
lemma regionStatsHsv_skin : regionStatsHsv hsvRegUniform20 = (20, 0) := by
  have h1 : histArgmax180 (List.map Prod.fst hsvRegUniform20) = 20 := by decide
  have h2 : intStd (List.map Prod.fst hsvRegUniform20) = 0 := by
    show intStd [20] = 0
    have hvar : (⌊listVarQ [20]⌋).toNat = 0 := by
      norm_num [listVarQ, listMeanQ]
    rw [intStd, hvar]
    decide
  rw [regionStatsHsv, h1, h2]

/-- Evaluation of the YCrCb statistics of the uniform skin sample: chroma
means 150 and 100, pooled deviation ⌊√((25² + 25²)/2)⌋ = 25. -/
lemma regionStatsYcrcb_skin : regionStatsYcrcb ycrcbRegSkin = (150, 100, 25) := by
  have h1 : intMean (List.map (fun p => p.2.1) ycrcbRegSkin) = 150 := by
    show intMean [150] = 150
    norm_num [intMean, listMeanQ]
    decide
  have h2 : intMean (List.map (fun p => p.2.2) ycrcbRegSkin) = 100 := by
    show intMean [100] = 100
    norm_num [intMean, listMeanQ]
    decide
  have h3 : intStd ((List.map (fun p => p.2.1) ycrcbRegSkin) ++
      (List.map (fun p => p.2.2) ycrcbRegSkin)) = 25 := by
    show intStd [150, 100] = 25
    have hvar : (⌊listVarQ [150, 100]⌋).toNat = 625 := by
      norm_num [listVarQ, listMeanQ]
      decide
    rw [intStd, hvar]
    decide
  rw [regionStatsYcrcb, h1, h2, h3]

/-- Claim C3, the code bug: calibStSkin is exactly the state a manual
calibration on the uniform skin sample commits (first conjunct). Re-running
auto-calibration on the very same sample yields a peak hue equal to the true
hue midpoint and chroma means within 3 of the true chroma midpoints — by the
claim the update must be committed — yet the code leaves the ranges
unchanged. The stored bounds are NumPy uint8 scalars, so the Cr midpoint is
computed as ((133 + 173) mod 256) / 2 = 25 instead of 153, making
diff_cr = |150 - 25| = 125 > 40 and silently disabling every commit for
realistic skin chroma. -/
theorem C3_theorem :
    calibrate_skin_color hsvRegUniform20 ycrcbRegSkin =
      (calibStSkin.hsv, calibStSkin.ycrcb) ∧
    (auto_calibrate_skin_color calibStSkin 640 480 320 240 50
      hsvRegUniform20 ycrcbRegSkin).1 = calibStSkin ∧
    ((regionStatsHsv hsvRegUniform20).1 : ℤ) -
      (trueMidpoint calibStSkin.hsv.lower.1 calibStSkin.hsv.upper.1 : ℤ) = 0 ∧
    (((regionStatsYcrcb ycrcbRegSkin).1 : ℤ) -
      (trueMidpoint calibStSkin.ycrcb.lower.2.1 calibStSkin.ycrcb.upper.2.1 : ℤ)).natAbs ≤ 40 ∧
    (((regionStatsYcrcb ycrcbRegSkin).2.1 : ℤ) -
      (trueMidpoint calibStSkin.ycrcb.lower.2.2 calibStSkin.ycrcb.upper.2.2 : ℤ)).natAbs ≤ 40 ∧
    uint8Midpoint calibStSkin.ycrcb.lower.2.1 calibStSkin.ycrcb.upper.2.1 = 25 ∧
    trueMidpoint calibStSkin.ycrcb.lower.2.1 calibStSkin.ycrcb.upper.2.1 = 153 := by
  refine ⟨?_, ?_, ?_, ?_, ?_, ?_, ?_⟩
  · rw [calibrate_skin_color, rangesFromRegions, regionStatsHsv_skin, regionStatsYcrcb_skin]
    decide
  · rw [auto_calibrate_skin_color, regionStatsHsv_skin, regionStatsYcrcb_skin]
    decide
  · rw [regionStatsHsv_skin]
    decide
  · rw [regionStatsYcrcb_skin]
    decide
  · rw [regionStatsYcrcb_skin]
    decide
  · decide
  · decide

/-- The scan of fallback_single_finger: its running maximum dominates every
squared distance in the list, never decreases, and its best point (when it
fired at all) is a member of the list realizing the running maximum. -/
lemma fallbackFold_spec (center : Int × Int) (l : List (Int × Int)) :
    ∀ (acc : Int × Option (Int × Int)),
      (∀ q ∈ l, sqDist q center ≤
        (l.foldl (fun acc pt =>
          if acc.1 < sqDist pt center then (sqDist pt center, some pt) else acc) acc).1) ∧
      acc.1 ≤ (l.foldl (fun acc pt =>
          if acc.1 < sqDist pt center then (sqDist pt center, some pt) else acc) acc).1 ∧
      ((l.foldl (fun acc pt =>
          if acc.1 < sqDist pt center then (sqDist pt center, some pt) else acc) acc) = acc ∨
        ∃ p ∈ l, (l.foldl (fun acc pt =>
          if acc.1 < sqDist pt center then (sqDist pt center, some pt) else acc) acc).2 = some p ∧
          (l.foldl (fun acc pt =>
          if acc.1 < sqDist pt center then (sqDist pt center, some pt) else acc) acc).1 =
            sqDist p center) := by
  induction l with
  | nil =>
      intro acc
      exact ⟨by simp, le_refl _, Or.inl rfl⟩
  | cons a t ih =>
      intro acc
      rw [List.foldl_cons]
      obtain ⟨ihdom, ihle, ihsrc⟩ :=
        ih (if acc.1 < sqDist a center then (sqDist a center, some a) else acc)
      have hstep : acc.1 ≤
          (if acc.1 < sqDist a center then (sqDist a center, some a) else acc).1 := by
        split
        · next hlt => exact le_of_lt hlt
        · exact le_refl _
      have hstepa : sqDist a center ≤
          (if acc.1 < sqDist a center then (sqDist a center, some a) else acc).1 := by
        split
        · exact le_refl _
        · next hnlt => exact le_of_not_lt hnlt
      refine ⟨?_, le_trans hstep ihle, ?_⟩
      · intro q hq
        rcases List.mem_cons.mp hq with rfl | hqt
        · exact le_trans hstepa ihle
        · exact ihdom q hqt
      · rcases ihsrc with heq | ⟨p, hpmem, h2, h1⟩
        · rw [heq]
          by_cases hlt : acc.1 < sqDist a center
          · rw [if_pos hlt]
            exact Or.inr ⟨a, by simp, rfl, rfl⟩
          · rw [if_neg hlt]
            exact Or.inl rfl
        · exact Or.inr ⟨p, by simp [hpmem], h2, h1⟩

/-- Claim C9: whenever the defect analysis left no candidates and the
fallback stage of detect_hand runs, it returns at most one fingertip; when
it returns one, that point is a contour point of maximal distance from the
palm center, that distance strictly exceeds 50 px (2500 in squared units)
and the point lies above the wrist cutoff line. Conversely, for the unique
farthest contour point p, exactly one fingertip [p] is returned if and only
if the distance of p from the palm center exceeds 50 px and p lies above
the wrist cutoff line; otherwise zero fingertips are returned. -/
theorem C9_theorem (contour : List (Int × Int)) (yF hF : Int) :
    (fallbackStage contour yF hF = [] ∨
      ∃ p, fallbackStage contour yF hF = [p] ∧ p ∈ contour ∧
        (∀ q ∈ contour, sqDist q (get_palm_center contour) ≤
          sqDist p (get_palm_center contour)) ∧
        2500 < sqDist p (get_palm_center contour) ∧
        ((p.2 : ℚ) < wristThresholdY yF hF)) ∧
    (∀ p, p ∈ contour →
      (∀ q ∈ contour, q ≠ p → sqDist q (get_palm_center contour) <
        sqDist p (get_palm_center contour)) →
      (fallbackStage contour yF hF = [p] ↔
        (2500 < sqDist p (get_palm_center contour) ∧
         (p.2 : ℚ) < wristThresholdY yF hF))) := by
  set c := get_palm_center contour with hc
  obtain ⟨hdom, hle, hsrc⟩ := fallbackFold_spec c contour ((0 : Int), none)
  set bf := contour.foldl
    (fun acc pt => if acc.1 < sqDist pt c then (sqDist pt c, some pt) else acc)
    ((0 : Int), (none : Option (Int × Int))) with hbf
  have hpow : (((50 : Nat) : Int)) ^ 2 = 2500 := by norm_num
  rcases hsrc with heq | ⟨p0, hp0mem, h2, h1⟩
  · -- the fold never fired: best is none, the stage is empty
    have hstage : fallbackStage contour yF hF = [] := by
      rw [fallbackStage, fallback_single_finger, ← hc, ← hbf, heq]
    have hzero : ∀ q ∈ contour, sqDist q c ≤ 0 := by
      intro q hq
      have := hdom q hq
      rw [heq] at this
      exact this
    constructor
    · exact Or.inl hstage
    · intro p hp _
      constructor
      · intro hcontra
        rw [hstage] at hcontra
        exact absurd hcontra (by simp)
      · rintro ⟨h50, _⟩
        exact absurd (lt_of_lt_of_le h50 (hzero p hp)) (by norm_num)
  · -- the fold produced a farthest point p0
    rw [h1] at hdom
    have hbfeq : bf = (sqDist p0 c, some p0) := by
      rw [Prod.ext_iff]
      exact ⟨h1, h2⟩
    by_cases h50 : 2500 < sqDist p0 c
    · have hfb : fallback_single_finger contour c 50 = some p0 := by
        rw [fallback_single_finger, ← hbf, hbfeq]
        simp only [hpow]
        rw [if_pos h50]
      by_cases hw : (p0.2 : ℚ) < wristThresholdY yF hF
      · have hstage : fallbackStage contour yF hF = [p0] := by
          rw [fallbackStage, ← hc, hfb]
          show (if (p0.2 : ℚ) < wristThresholdY yF hF then [p0] else []) = [p0]
          rw [if_pos hw]
        constructor
        · exact Or.inr ⟨p0, hstage, hp0mem, hdom, h50, hw⟩
        · intro p hp hu
          constructor
          · intro hps
            rw [hstage] at hps
            obtain rfl : p0 = p := by
              injection hps with hh _
            exact ⟨h50, hw⟩
          · rintro ⟨h50p, hwp⟩
            have hp0p : p0 = p := by
              by_contra hne
              exact absurd (hdom p hp) (not_le.mpr (hu p0 hp0mem hne))
            rw [hstage, hp0p]
      · have hstage : fallbackStage contour yF hF = [] := by
          rw [fallbackStage, ← hc, hfb]
          show (if (p0.2 : ℚ) < wristThresholdY yF hF then [p0] else []) = []
          rw [if_neg hw]
        constructor
        · exact Or.inl hstage
        · intro p hp hu
          constructor
          · intro hcontra
            rw [hstage] at hcontra
            exact absurd hcontra (by simp)
          · rintro ⟨h50p, hwp⟩
            have hp0p : p0 = p := by
              by_contra hne
              exact absurd (hdom p hp) (not_le.mpr (hu p0 hp0mem hne))
            rw [hp0p] at hw
            exact absurd hwp hw
    · have hfb : fallback_single_finger contour c 50 = none := by
        rw [fallback_single_finger, ← hbf, hbfeq]
        simp only [hpow]
        rw [if_neg h50]
      have hstage : fallbackStage contour yF hF = [] := by
        rw [fallbackStage, ← hc, hfb]
      constructor
      · exact Or.inl hstage
      · intro p hp hu
        constructor
        · intro hcontra
          rw [hstage] at hcontra
          exact absurd hcontra (by simp)
        · rintro ⟨h50p, hwp⟩
          exact absurd (lt_of_lt_of_le h50p (hdom p hp)) h50

/-- Witness for C9: on the triangle contour [(0,0), (80,0), (0,1)] the palm
center evaluates to (26, 0), the unique farthest point (80, 0) is 54 px away
(beyond 50) and above the wrist line of the box y = 0, h = 100, so the
fallback stage returns exactly that one fingertip. -/
theorem C9_witness :
    fallbackStage [(0, 0), (80, 0), (0, 1)] 0 100 = [(80, 0)] := by
  have h := (C9_theorem [(0, 0), (80, 0), (0, 1)] 0 100).2 (80, 0) (by decide)
    (by decide)
  exact h.mpr ⟨by decide, by norm_num [wristThresholdY]⟩

/-- cv2.contourArea of the rectangle contour c5rect is 648. -/
lemma c5rect_area : contourArea c5rect = 648 := by
  have hs : shoelace c5rect = 1296 := by decide
  rw [contourArea, hs]
  norm_num

/-- Claim C5, amended: the largest contour of the final mask is drawn into
biggest_mask (becomes the hand candidate) exactly when its area exceeds
500 px²; but fingertip extraction and the smoother update require area
above 1000 px² (line 528), so on every frame whose largest contour has
area at most 1000 — in particular in the whole band (500, 1000] — the
returned fingertip list is empty and the smoother state is untouched. -/
theorem C5_theorem (contFinal contAfterCut : List (List (Int × Int)))
    (defectStage : Option (List (Int × Int))) (s : SmootherState)
    (offset_x offset_y : Int)
    (hle : ∀ mc, maxByArea contFinal = some mc → contourArea mc ≤ 1000) :
    (detect_hand contFinal contAfterCut defectStage s offset_x offset_y).fingertips = [] ∧
    (detect_hand contFinal contAfterCut defectStage s offset_x offset_y).smoother = s ∧
    ((detect_hand contFinal contAfterCut defectStage s offset_x offset_y).candidateDrawn = true ↔
      ∃ mc, maxByArea contFinal = some mc ∧ 500 < contourArea mc) := by
  cases hm : maxByArea contFinal with
  | none =>
      simp only [detect_hand, hm]
      refine ⟨trivial, trivial, ?_⟩
      simp
  | some mc =>
      have hgate : ¬ (1000 < contourArea mc) := not_lt.mpr (hle mc hm)
      simp only [detect_hand, hm]
      rw [if_neg hgate]
      refine ⟨rfl, rfl, ?_⟩
      simp [decide_eq_true_iff]

/-- Witness for C5 at the concrete rectangle contour of area 648. -/
theorem C5_witness :
    (detect_hand [c5rect] [c5rect] (some []) smootherInit 0 0).fingertips = [] ∧
    (detect_hand [c5rect] [c5rect] (some []) smootherInit 0 0).smoother = smootherInit ∧
    ((detect_hand [c5rect] [c5rect] (some []) smootherInit 0 0).candidateDrawn = true ↔
      ∃ mc, maxByArea [c5rect] = some mc ∧ 500 < contourArea mc) :=
  C5_theorem [c5rect] [c5rect] (some []) smootherInit 0 0
    (by
      intro mc hmc
      have hmcv : mc = c5rect := by simpa [maxByArea] using hmc.symm
      rw [hmcv, c5rect_area]
      norm_num)

/-- Claim C5, counterexample: on a frame whose largest final-mask contour
is the rectangle c5rect of area 648 ∈ (500, 1000], the claimed behavior —
the contour becomes the hand candidate and fingertip extraction runs,
acquiring the smoother with the candidate center — is violated: the code
leaves the smoother unacquired (center still none). -/
theorem C5_counterexample :
    ¬ claimC5Extraction [c5rect] [c5rect] (some []) smootherInit 0 0 := by
  intro h
  have hmax : maxByArea [c5rect] = some c5rect := rfl
  have h2 := h c5rect hmax (by rw [c5rect_area]; norm_num)
  have hgate : ¬ (1000 < contourArea c5rect) := by
    rw [c5rect_area]
    norm_num
  have hL : (detect_hand [c5rect] [c5rect] (some []) smootherInit 0 0).smoother =
      smootherInit := by
    simp only [detect_hand, hmax]
    rw [if_neg hgate]
  rw [hL] at h2
  have h3 := congrArg SmootherState.center h2
  simp [smootherInit, smoothStep, use_kalman] at h3

/- dimension bookkeeping -/
lemma dilateN_h (k n : Nat) (img : Gray) : (dilateN k n img).h = img.h := by
  induction n generalizing img with
  | zero => rfl
  | succ m ih =>
      rw [dilateN, Function.iterate_succ_apply]
      exact ih (dilate k img)

lemma dilateN_w (k n : Nat) (img : Gray) : (dilateN k n img).w = img.w := by
  induction n generalizing img with
  | zero => rfl
  | succ m ih =>
      rw [dilateN, Function.iterate_succ_apply]
      exact ih (dilate k img)

/- congruence -/
lemma inGrid_congr (a b : Gray) (hh : a.h = b.h) (hw : a.w = b.w)
    (hp : ∀ r c, r < a.h → c < a.w → a.pix r c = b.pix r c) (rr cc : Int) :
    inGrid a rr cc = inGrid b rr cc := by
  rw [inGrid, inGrid, hh, hw]
  split
  · next hcond =>
      exact congrArg some (hp _ _ (by omega) (by omega))
  · rfl

lemma neighborVals_congr (k : Nat) (a b : Gray) (hh : a.h = b.h) (hw : a.w = b.w)
    (hp : ∀ r c, r < a.h → c < a.w → a.pix r c = b.pix r c) (r c : Nat) :
    neighborVals k a r c = neighborVals k b r c := by
  rw [neighborVals, neighborVals]
  congr 1
  funext i
  congr 1
  funext j
  split
  · exact inGrid_congr a b hh hw hp _ _
  · rfl

lemma dilate_congr (k : Nat) (a b : Gray) (hh : a.h = b.h) (hw : a.w = b.w)
    (hp : ∀ r c, r < a.h → c < a.w → a.pix r c = b.pix r c) :
    ∀ r c, (dilate k a).pix r c = (dilate k b).pix r c := by
  intro r c
  show (neighborVals k a r c).foldl max 0 = (neighborVals k b r c).foldl max 0
  rw [neighborVals_congr k a b hh hw hp]

lemma dilateN_congr (k n : Nat) (a b : Gray) (hh : a.h = b.h) (hw : a.w = b.w)
    (hp : ∀ r c, r < a.h → c < a.w → a.pix r c = b.pix r c) :
    ∀ r c, r < (dilateN k n a).h → c < (dilateN k n a).w →
      (dilateN k n a).pix r c = (dilateN k n b).pix r c := by
  induction n generalizing a b with
  | zero =>
      intro r c hr hc
      exact hp r c hr hc
  | succ m ih =>
      intro r c hr hc
      rw [dilateN, dilateN, Function.iterate_succ_apply, Function.iterate_succ_apply]
      refine ih (dilate k a) (dilate k b) hh hw
        (fun r2 c2 _ _ => dilate_congr k a b hh hw hp r2 c2) r c ?_ ?_
      · rw [dilateN, Function.iterate_succ_apply] at hr
        exact hr
      · rw [dilateN, Function.iterate_succ_apply] at hc
        exact hc

/- fold max facts -/
lemma foldl_max_le_init (l : List Nat) (b : Nat) : b ≤ l.foldl max b := by
  induction l generalizing b with
  | nil => simp
  | cons x t ih =>
      rw [List.foldl_cons]
      exact le_trans (le_max_left b x) (ih (max b x))

lemma le_foldl_max (l : List Nat) (b : Nat) : ∀ a ∈ l, a ≤ l.foldl max b := by
  induction l generalizing b with
  | nil => intro a ha; simp at ha
  | cons x t ih =>
      intro a ha
      rw [List.foldl_cons]
      rcases List.mem_cons.mp ha with rfl | hat
      · exact le_trans (le_max_right b a) (foldl_max_le_init t (max b a))
      · exact ih (max b x) a hat

lemma foldl_max_le (l : List Nat) (b B : Nat) (hb : b ≤ B) (hl : ∀ a ∈ l, a ≤ B) :
    l.foldl max b ≤ B := by
  induction l generalizing b with
  | nil => simpa using hb
  | cons x t ih =>
      rw [List.foldl_cons]
      exact ih (max b x) (max_le hb (hl x (by simp)))
        (fun a ha => hl a (by simp [ha]))

/- members of neighborVals are pixel values -/
lemma neighborVals_mem_le (k : Nat) (img : Gray) (r c : Nat) (B : Nat)
    (hB : ∀ r2 c2, img.pix r2 c2 ≤ B) :
    ∀ v ∈ neighborVals k img r c, v ≤ B := by
  intro v hv
  rw [neighborVals, List.mem_flatMap] at hv
  obtain ⟨i, _, hv2⟩ := hv
  rw [List.mem_filterMap] at hv2
  obtain ⟨j, _, hv3⟩ := hv2
  by_cases hk : ellipseKernel k i j
  · rw [if_pos hk, inGrid] at hv3
    split at hv3
    · obtain rfl := Option.some.injEq _ _ ▸ hv3
      injection hv3 with hv4
      rw [← hv4]
      apply hB
    · exact absurd hv3 (by simp)
  · rw [if_neg hk] at hv3
    exact absurd hv3 (by simp)

lemma pix_mem_neighborVals (img : Gray) (r c : Nat) (hr : r < img.h) (hc : c < img.w) :
    img.pix r c ∈ neighborVals 10 img r c := by
  rw [neighborVals, List.mem_flatMap]
  refine ⟨5, by decide, ?_⟩
  rw [List.mem_filterMap]
  refine ⟨5, by decide, ?_⟩
  rw [if_pos (by decide : ellipseKernel 10 5 5 = true)]
  rw [inGrid]
  have hrr : (r : Int) + ((5 : ℕ) : Int) - ((10 / 2 : ℕ) : Int) = (r : Int) := by
    norm_num
  have hcc : (c : Int) + ((5 : ℕ) : Int) - ((10 / 2 : ℕ) : Int) = (c : Int) := by
    norm_num
  rw [hrr, hcc]
  rw [if_pos ⟨by positivity, by exact_mod_cast hr, by positivity, by exact_mod_cast hc⟩]
  rw [Int.toNat_natCast, Int.toNat_natCast]

/- dilation preserves bounds and 255 pixels -/
lemma dilate_pix_le (k : Nat) (img : Gray) (hB : ∀ r c, img.pix r c ≤ 255) :
    ∀ r c, (dilate k img).pix r c ≤ 255 := by
  intro r c
  show (neighborVals k img r c).foldl max 0 ≤ 255
  exact foldl_max_le _ 0 255 (by norm_num) (neighborVals_mem_le k img r c 255 hB)

lemma dilate_pix_keep (img : Gray) (r c : Nat) (hr : r < img.h) (hc : c < img.w)
    (hB : ∀ r2 c2, img.pix r2 c2 ≤ 255) (hv : img.pix r c = 255) :
    (dilate 10 img).pix r c = 255 := by
  apply le_antisymm (dilate_pix_le 10 img hB r c)
  calc (255 : Nat) = img.pix r c := hv.symm
  _ ≤ (neighborVals 10 img r c).foldl max 0 :=
      le_foldl_max _ 0 _ (pix_mem_neighborVals img r c hr hc)

lemma dilateN_keep (n : Nat) (img : Gray) (r c : Nat) (hr : r < img.h) (hc : c < img.w)
    (hB : ∀ r2 c2, img.pix r2 c2 ≤ 255) (hv : img.pix r c = 255) :
    (dilateN 10 n img).pix r c = 255 := by
  induction n generalizing img with
  | zero => exact hv
  | succ m ih =>
      rw [dilateN, Function.iterate_succ_apply]
      exact ih (dilate 10 img) hr hc (dilate_pix_le 10 img hB)
        (dilate_pix_keep img r c hr hc hB hv)

/- counting -/
lemma overlap_eq_union_of_agree (a b : Gray)
    (hp : ∀ r c, r < a.h → c < a.w → a.pix r c = b.pix r c) :
    overlapCount a b = unionCount a b := by
  rw [overlapCount, unionCount]
  apply congrArg Finset.card
  apply Finset.filter_congr
  intro rc hrc
  rw [Finset.mem_product, Finset.mem_range, Finset.mem_range] at hrc
  rw [hp rc.1 rc.2 hrc.1 hrc.2]
  simp

lemma unionCount_pos (a b : Gray) (r c : Nat) (hr : r < a.h) (hc : c < a.w)
    (hv : a.pix r c = 255) : 0 < unionCount a b := by
  rw [unionCount]
  apply Finset.card_pos.mpr
  exact ⟨(r, c), Finset.mem_filter.mpr
    ⟨Finset.mem_product.mpr ⟨Finset.mem_range.mpr hr, Finset.mem_range.mpr hc⟩,
     Or.inl hv⟩⟩

/-- Claim C1, amended: correlation_score with default parameters yields
exactly 100.0 when the reference input is the bitwise inverse of the user
mask (the function inverts the reference before binarizing, so only then do
the binarized foregrounds coincide), provided the mask has 8-bit pixels and
at least one ink pixel (value at most 127). In that case intersection
equals union after dilation and min(100·1·1.1, 100) = 100. -/
theorem C1_theorem (M : Gray)
    (hB : ∀ r c, r < M.h → c < M.w → M.pix r c ≤ 255)
    (hex : ∃ r c, r < M.h ∧ c < M.w ∧ M.pix r c ≤ 127) :
    overlapCount (correlation_score M (bitwise_not M) 10 (11/10) 6).2.1
        (correlation_score M (bitwise_not M) 10 (11/10) 6).2.2.1 =
      unionCount (correlation_score M (bitwise_not M) 10 (11/10) 6).2.1
        (correlation_score M (bitwise_not M) 10 (11/10) 6).2.2.1 ∧
    (correlation_score M (bitwise_not M) 10 (11/10) 6).1 = 100 := by
  obtain ⟨r0, c0, hr0, hc0, hv0⟩ := hex
  set ub := threshold_binary_inv M 127 255 with hub
  set rb := threshold_binary_inv (bitwise_not (bitwise_not M)) 127 255 with hrb
  have hubB : ∀ r c, ub.pix r c ≤ 255 := by
    intro r c
    show (if 127 < M.pix r c then 0 else 255) ≤ 255
    split <;> norm_num
  have hagree : ∀ r c, r < ub.h → c < ub.w → ub.pix r c = rb.pix r c := by
    intro r c hr hc
    show (if 127 < M.pix r c then 0 else 255) =
      (if 127 < 255 - (255 - M.pix r c) then 0 else 255)
    have hple : M.pix r c ≤ 255 := hB r c hr hc
    have : 255 - (255 - M.pix r c) = M.pix r c := by omega
    rw [this]
  have hud : (correlation_score M (bitwise_not M) 10 (11/10) 6).2.1 = dilateN 10 6 ub := rfl
  have hrd : (correlation_score M (bitwise_not M) 10 (11/10) 6).2.2.1 = dilateN 10 6 rb := rfl
  have hagree6 : ∀ r c, r < (dilateN 10 6 ub).h → c < (dilateN 10 6 ub).w →
      (dilateN 10 6 ub).pix r c = (dilateN 10 6 rb).pix r c :=
    dilateN_congr 10 6 ub rb rfl rfl hagree
  have hcounts : overlapCount (dilateN 10 6 ub) (dilateN 10 6 rb) =
      unionCount (dilateN 10 6 ub) (dilateN 10 6 rb) :=
    overlap_eq_union_of_agree _ _ hagree6
  have hub255 : ub.pix r0 c0 = 255 := by
    show (if 127 < M.pix r0 c0 then 0 else 255) = 255
    rw [if_neg (by omega)]
  have hkeep : (dilateN 10 6 ub).pix r0 c0 = 255 :=
    dilateN_keep 6 ub r0 c0 hr0 hc0 hubB hub255
  have hupos : 0 < unionCount (dilateN 10 6 ub) (dilateN 10 6 rb) := by
    apply unionCount_pos _ _ r0 c0 ?_ ?_ hkeep
    · rw [dilateN_h]
      exact hr0
    · rw [dilateN_w]
      exact hc0
  have hscore : (correlation_score M (bitwise_not M) 10 (11/10) 6).1 =
      min ((if unionCount (dilateN 10 6 ub) (dilateN 10 6 rb) = 0 then (0 : ℚ)
            else (overlapCount (dilateN 10 6 ub) (dilateN 10 6 rb) : ℚ) /
              (unionCount (dilateN 10 6 ub) (dilateN 10 6 rb) : ℚ)) * 100 * (11/10)) 100 := rfl
  constructor
  · rw [hud, hrd]
    exact hcounts
  · rw [hscore, if_neg (Nat.pos_iff_ne_zero.mp hupos), hcounts]
    rw [div_self (by exact_mod_cast Nat.pos_iff_ne_zero.mp hupos)]
    norm_num

/-- Witness for C1 at the 1×1 all-black mask. -/
theorem C1_witness :
    (correlation_score grayZero1 (bitwise_not grayZero1) 10 (11/10) 6).1 = 100 :=
  (C1_theorem grayZero1 (fun r c _ _ => by norm_num [grayZero1])
    ⟨0, 0, by norm_num [grayZero1]⟩).2

/-- Claim C1, counterexample: scoring the 1×1 all-black mask against
itself yields 0.0, not 100.0. The function inverts the reference, so for
identical inputs the two binarized foregrounds are complementary: the user
foreground covers the pixel, the reference foreground is empty. -/
theorem C1_counterexample :
    (correlation_score grayZero1 grayZero1 10 (11/10) 6).1 = 0 ∧
    (correlation_score grayZero1 grayZero1 10 (11/10) 6).1 ≠ 100 := by
  have ho : overlapCount (dilateN 10 6 (threshold_binary_inv grayZero1 127 255))
      (dilateN 10 6 (threshold_binary_inv (bitwise_not grayZero1) 127 255)) = 0 := by
    decide
  have hu : unionCount (dilateN 10 6 (threshold_binary_inv grayZero1 127 255))
      (dilateN 10 6 (threshold_binary_inv (bitwise_not grayZero1) 127 255)) = 1 := by
    decide
  have hs : (correlation_score grayZero1 grayZero1 10 (11/10) 6).1 =
      min ((if unionCount (dilateN 10 6 (threshold_binary_inv grayZero1 127 255))
              (dilateN 10 6 (threshold_binary_inv (bitwise_not grayZero1) 127 255)) = 0
            then (0 : ℚ)
            else (overlapCount (dilateN 10 6 (threshold_binary_inv grayZero1 127 255))
                (dilateN 10 6 (threshold_binary_inv (bitwise_not grayZero1) 127 255)) : ℚ) /
              (unionCount (dilateN 10 6 (threshold_binary_inv grayZero1 127 255))
                (dilateN 10 6 (threshold_binary_inv (bitwise_not grayZero1) 127 255)) : ℚ)) *
          100 * (11/10)) 100 := rfl
  rw [hs, ho, hu]
  norm_num

end ShapeMaster




